import Mathlib

/-!
# Verification of the invoice-inbox attachment pipeline

A shallow embedding, in Lean 4, of the attachment extraction-and-persistence
pipeline of the `invoice-inbox` repository, together with proofs and
refutations of the frozen specification claims.

Two variants of the pipeline coexist in the repository:

* `src/lib/invoiceProcessor.js` (embedded below as `processAttachment`):
  branches only on whether the content type contains `"pdf"`, extracts PDF
  text via a remote HTTP endpoint with no empty-text check, and hardcodes
  `image/png` in the image data URI.
* `src/unnamed/part_001` (embedded below as `processAttachmentV2`;
  `src/unnamed/part_000` is the same module with different log strings):
  rejects content types that are neither PDF nor `image/*`, extracts PDF text
  locally with an empty-text check, and tags the image data URI with the
  declared content type.

Storage collaborators (Microsoft Graph, OpenAI, the PDF extractor) are
modelled as an `Env` of `Except`-valued behaviours — an `Except.error` models
a thrown/rejected call — and the OneDrive state as an explicit `Drive`.

JSON is modelled twice, at the two granularities the source uses it:

* the pipeline's own consumption of extractor responses works over `JObj`,
  flat objects of scalars, with the flat parser `jsonParse`;
* the fence-stripping round trip is stated over full documents `JDoc`
  (nested objects and arrays, numbers, booleans, null, strings with escape
  sequences), with the codec `stringifyJson` / `parseJson` modelling
  `JSON.stringify` and `JSON.parse`. Numbers are exact rationals rendered
  in decimal notation (every JavaScript number shown in decimal notation
  is such a rational; exponent renderings for magnitudes ≥ 1e21 are
  outside the model).
-/

/-- A JSON value as produced by `JSON.parse` on the AI responses this
pipeline consumes: flat objects of strings, numbers, booleans and null.
Numbers are exact rationals (the decimal forms JSON carries). -/
inductive JVal where
  | jstr (s : String)
  | jnum (q : ℚ)
  | jbool (b : Bool)
  | jnull
deriving DecidableEq, Repr

/-- A parsed JSON object, in textual member order
(`JSON.parse` of the flat objects the extractor returns). -/
abbrev JObj := List (String × JVal)

/-- A JavaScript object viewed as a key → value map:
`none` models an `undefined` property. -/
abbrev Rec := String → Option JVal

/-- JavaScript truthiness test on a defined value:
`""`, `0`, `false` and `null` are falsy. -/
def jsFalsyV : JVal → Bool
  | .jstr s => s == ""
  | .jnum q => q == 0
  | .jbool b => !b
  | .jnull => true

/-- JavaScript truthiness test on a possibly-`undefined` property
(`!obj.k` in the source): `undefined` is falsy. -/
def jsFalsyO : Option JVal → Bool
  | none => true
  | some v => jsFalsyV v

/-- Property read on a parsed object: later members overwrite earlier ones,
as in a JavaScript object literal / `JSON.parse`. -/
def objGet (o : JObj) (k : String) : Option JVal :=
  (o.reverse.lookup k)

/-- The map denoted by a parsed JSON object. -/
def toRec (o : JObj) : Rec := fun k => objGet o k

/-- The `total_amount` → `total` key migration both extractors apply
(src/lib/invoiceProcessor.js lines 97–100 and 127–130, src/unnamed/part_001
lines 111–114 and 143–146):
if `parsed.total_amount !== undefined && parsed.total === undefined`, set
`parsed.total = parsed.total_amount` and `delete parsed.total_amount`. -/
def normalizeTotal (r : Rec) : Rec :=
  match r "total_amount", r "total" with
  | some v, none =>
      fun k =>
        if k = "total" then some v
        else if k = "total_amount" then none
        else r k
  | _, _ => r

/-- The validation gate of `processAttachment`
(`if (!data.invoice_date || !data.total) throw ...`,
src/lib/invoiceProcessor.js lines 19–21): both fields must be truthy. -/
def validRecord (r : Rec) : Bool :=
  !(jsFalsyO (r "invoice_date") || jsFalsyO (r "total"))

/-- C6: For every parsed AI response object that uses the alternate key
`total_amount` in place of `total` (it has `total_amount` and no `total`
key), the normalized record has that value under `total` and no
`total_amount` key — exactly one `total` key survives. -/
theorem c6_total_key_migration (r : Rec) (v : JVal)
    (h1 : r "total_amount" = some v) (h2 : r "total" = none) :
    normalizeTotal r "total" = some v ∧ normalizeTotal r "total_amount" = none := by
  unfold normalizeTotal
  rw [h1, h2]
  constructor
  · simp
  · simp

/-- The rational 12.5, written with an explicit numerator and denominator so
that it evaluates by `decide`. -/
def twelvePointFive : ℚ := ⟨25, 2, by decide, by decide⟩

/-- Witness for C6 at the spec's own example: a response with
`total_amount = 12.5` and no `total` key. -/
theorem c6_witness :
    normalizeTotal (toRec [("invoice_date", JVal.jstr "2025-07-03"),
      ("total_amount", JVal.jnum twelvePointFive)]) "total"
        = some (JVal.jnum twelvePointFive) ∧
    normalizeTotal (toRec [("invoice_date", JVal.jstr "2025-07-03"),
      ("total_amount", JVal.jnum twelvePointFive)]) "total_amount" = none :=
  c6_total_key_migration _ _ (by decide) (by decide)

/-- The backtick character, U+0060. -/
def btick : Char := Char.ofNat 96

/-- The double-quote character. -/
def qm : Char := '"'

/-- The whitespace class of JavaScript (`\s` in a regex, `String.trim`):
space, tab, line terminators, form/vertical feed, NBSP, BOM and the
common Unicode space separators. -/
def isJsSpace (c : Char) : Bool :=
  c = ' ' || c = '\t' || c = '\n' || c = '\r' ||
  c = Char.ofNat 0x0b || c = Char.ofNat 0x0c ||
  c = Char.ofNat 0xa0 || c = Char.ofNat 0x1680 ||
  (0x2000 ≤ c.toNat && c.toNat ≤ 0x200a) ||
  c = Char.ofNat 0x2028 || c = Char.ofNat 0x2029 ||
  c = Char.ofNat 0x202f || c = Char.ofNat 0x205f ||
  c = Char.ofNat 0x3000 || c = Char.ofNat 0xfeff

/-- The zero-width characters removed by `stripFence`
(`/[​-‍﻿]/g`). -/
def isZeroWidth (c : Char) : Bool :=
  (0x200b ≤ c.toNat && c.toNat ≤ 0x200d) || c.toNat = 0xfeff

/-- `String.prototype.trim` on a character list. -/
def jsTrimList (cs : List Char) : List Char :=
  ((cs.dropWhile isJsSpace).reverse.dropWhile isJsSpace).reverse

/-- `String.prototype.trim`. -/
def jsTrim (s : String) : String := ⟨jsTrimList s.data⟩

/-- `haystack.includes(needle)` on character lists. -/
def listIncludes (pat : List Char) : List Char → Bool
  | [] => pat.isEmpty
  | c :: rest => pat.isPrefixOf (c :: rest) || listIncludes pat rest

/-- `String.prototype.includes`. -/
def jsIncludes (s pat : String) : Bool := listIncludes pat.data s.data

/-- `String.prototype.startsWith`. -/
def jsStartsWith (s pat : String) : Bool := pat.data.isPrefixOf s.data

/-- The character class `[\/\\:*?"<>|#%]` replaced by `-` in
`sanitizeFilename` (src/lib/invoiceProcessor.js line 47). -/
def isBadFilenameChar (c : Char) : Bool :=
  c = '/' || c = '\\' || c = ':' || c = '*' || c = '?' || c = '"' ||
  c = '<' || c = '>' || c = '|' || c = '#' || c = '%'

/-- `replace(/\s+/g, '_')`: each maximal whitespace run becomes one `_`.
The boolean tracks whether the previous character was part of a run. -/
def collapseWsAux : List Char → Bool → List Char
  | [], _ => []
  | c :: rest, inRun =>
      if isJsSpace c then
        if inRun then collapseWsAux rest true
        else '_' :: collapseWsAux rest true
      else c :: collapseWsAux rest false

/-- `sanitizeFilename` (src/lib/invoiceProcessor.js lines 45–50):
replace the unsafe character class with `-`, collapse whitespace runs to
`_`, then truncate to 100 characters. -/
def sanitizeFilename (filename : String) : String :=
  ⟨(collapseWsAux (filename.data.map
      (fun c => if isBadFilenameChar c then '-' else c)) false).take 100⟩

/-- Split a character list at the first occurrence of three consecutive
backticks: `some (before, after)` when found, `none` otherwise. -/
def splitOnTriple : List Char → Option (List Char × List Char)
  | a :: b :: c :: rest =>
      if a = btick ∧ b = btick ∧ c = btick then some ([], rest)
      else
        match splitOnTriple (b :: c :: rest) with
        | some (x, y) => some (a :: x, y)
        | none => none
  | _ => none

/-- The optional, case-insensitive `json` tag after the opening fence
(`(?:json)?` in the regex, matched greedily). -/
def stripJsonTag : List Char → List Char
  | a :: b :: c :: d :: rest =>
      if a.toLower = 'j' ∧ b.toLower = 's' ∧ c.toLower = 'o' ∧ d.toLower = 'n' then
        rest
      else a :: b :: c :: d :: rest
  | cs => cs

/-- The capture group of `` /```(?:json)?\s*([\s\S]*?)```/i `` when the
pattern matches: interior of the first fenced block. The whole pattern
matches iff a closing triple backtick follows the first opening one
(non-backtick characters consumed by the `json` tag and `\s*` cannot
contain a triple, so searching after them is equivalent). -/
def fenceInner (cs : List Char) : Option (List Char) :=
  match splitOnTriple cs with
  | none => none
  | some (_, rest) =>
      match splitOnTriple ((stripJsonTag rest).dropWhile isJsSpace) with
      | none => none
      | some (inner, _) => some inner

/-- `stripFence` (src/lib/invoiceProcessor.js lines 67–72): remove
zero-width characters, return the first fenced block's interior trimmed
if a fence matches, the trimmed whole string otherwise. -/
def stripFence (s : String) : String :=
  let cs := s.data.filter (fun c => !(isZeroWidth c))
  match fenceInner cs with
  | some inner => ⟨jsTrimList inner⟩
  | none => ⟨jsTrimList cs⟩

/-- Decimal digits of `n / 10 ^ fuel-steps`, most significant first; the
fuel makes the recursion structural so concrete terms reduce in the
kernel. -/
def natCharsAux : Nat → Nat → List Char
  | 0, _ => []
  | fuel + 1, n =>
      if n = 0 then []
      else natCharsAux fuel (n / 10) ++ [Char.ofNat (48 + n % 10)]

/-- Decimal digit string of a natural number, without leading zeros. -/
def natChars (n : Nat) : List Char :=
  if n = 0 then ['0'] else natCharsAux (n + 1) n

/-- The smallest `k` with `q * 10 ^ k` integral (searched up to 1100,
enough for every JavaScript number: doubles are dyadic rationals whose
decimal expansions terminate within 1075 fractional digits). -/
def decExponent (q : ℚ) : Nat :=
  ((List.range 1100).find? (fun k => (q.num.natAbs * 10 ^ k) % q.den = 0)).getD 0

/-- Decimal rendering of a JavaScript number, as `String(number)` renders
the decimal-notation range: no trailing zeros, no decimal point for
integers. (JavaScript switches to exponent notation for magnitudes of
1e21 and above; that rendering, and non-decimal rationals, are outside
the modelled fragment.) -/
def ratToJsString (q : ℚ) : String :=
  let k := decExponent q
  let m := q.num.natAbs * 10 ^ k / q.den
  let ds := natChars m
  let ds := if ds.length ≤ k then List.replicate (k + 1 - ds.length) '0' ++ ds else ds
  let sign : List Char := if q.num < 0 then ['-'] else []
  if k = 0 then ⟨sign ++ ds⟩
  else ⟨sign ++ (ds.take (ds.length - k) ++ '.' :: ds.drop (ds.length - k))⟩

/-- Skip JSON insignificant whitespace. -/
def skipWs (cs : List Char) : List Char := cs.dropWhile isJsSpace

/-- Parse a JSON string literal. Models `JSON.parse` on the escape-free
string literals this development quantifies over; escape sequences are
outside the modelled fragment. -/
def parseString (cs : List Char) : Option (String × List Char) :=
  match cs with
  | c :: rest =>
      if c = qm then
        match (rest.dropWhile (fun d => d ≠ qm)) with
        | d :: r2 =>
            if d = qm then some (⟨rest.takeWhile (fun d => d ≠ qm)⟩, r2) else none
        | [] => none
      else none
  | [] => none

/-- Numeric value of a digit list. -/
def natOfDigits (ds : List Char) : Nat :=
  ds.foldl (fun n c => n * 10 + (c.toNat - 48)) 0

/-- Parse a JSON number (optional sign, integer part, optional fraction;
exponents are outside the modelled fragment). -/
def parseNumber (cs : List Char) : Option (JVal × List Char) :=
  let (neg, cs1) :=
    match cs with
    | c :: r => if c = '-' then (true, r) else (false, cs)
    | [] => (false, cs)
  let ds := cs1.takeWhile Char.isDigit
  let cs2 := cs1.dropWhile Char.isDigit
  if ds.isEmpty then none
  else
    let ip : ℚ := (natOfDigits ds : ℚ)
    match cs2 with
    | '.' :: cs3 =>
        let fs := cs3.takeWhile Char.isDigit
        let cs4 := cs3.dropWhile Char.isDigit
        if fs.isEmpty then none
        else
          let v : ℚ := ip + (natOfDigits fs : ℚ) / ((10 : ℚ) ^ fs.length)
          some (.jnum (if neg then -v else v), cs4)
    | _ => some (.jnum (if neg then -ip else ip), cs2)

/-- Parse a JSON scalar value (string, number, boolean or null). -/
def parseVal (cs : List Char) : Option (JVal × List Char) :=
  match cs with
  | [] => none
  | c :: _ =>
      if c = qm then (parseString cs).map (fun p => (JVal.jstr p.1, p.2))
      else if c = '-' || c.isDigit then parseNumber cs
      else
        match cs with
        | 't' :: 'r' :: 'u' :: 'e' :: r => some (.jbool true, r)
        | 'f' :: 'a' :: 'l' :: 's' :: 'e' :: r => some (.jbool false, r)
        | 'n' :: 'u' :: 'l' :: 'l' :: r => some (.jnull, r)
        | _ => none

/-- Parse the members of a non-empty JSON object, after the opening brace.
Fuel bounds the recursion; `jsonParse` supplies enough for its input. -/
def parseMembers : Nat → List Char → Option (JObj × List Char)
  | 0, _ => none
  | fuel + 1, cs =>
      match parseString (skipWs cs) with
      | none => none
      | some (k, cs1) =>
          match skipWs cs1 with
          | ':' :: cs3 =>
              match parseVal (skipWs cs3) with
              | none => none
              | some (v, cs4) =>
                  match skipWs cs4 with
                  | ',' :: cs6 =>
                      match parseMembers fuel cs6 with
                      | some (o, r) => some ((k, v) :: o, r)
                      | none => none
                  | '}' :: cs6 => some ([(k, v)], cs6)
                  | _ => none
          | _ => none

/-- `JSON.parse`, modelled on the fragment this pipeline consumes: a single
flat object of scalar members. Any other document shape fails (the
orchestrator treats both a parse failure and a shape mismatch as a failed
attachment, so the distinction is unobservable in the claims). -/
def jsonParse (s : String) : Option JObj :=
  match skipWs s.data with
  | c :: rest =>
      if c = '{' then
        match skipWs rest with
        | d :: r2 =>
            if d = '}' then if (skipWs r2).isEmpty then some [] else none
            else
              match parseMembers (rest.length + 1) (skipWs rest) with
              | some (o, r3) => if (skipWs r3).isEmpty then some o else none
              | none => none
        | [] => none
      else none
  | [] => none

theorem takeWhile_append_stop {p : Char → Bool} :
    ∀ (xs : List Char) (y : Char) (ys : List Char),
      (∀ c ∈ xs, p c = true) → p y = false →
      (xs ++ y :: ys).takeWhile p = xs := by
  intro xs
  induction xs with
  | nil => intro y ys _ hy; simp [List.takeWhile, hy]
  | cons a l ih =>
      intro y ys hall hy
      have ha : p a = true := hall a (by simp)
      simp only [List.cons_append, List.takeWhile, ha]
      exact congrArg (a :: ·) (ih y ys (fun c hc => hall c (by simp [hc])) hy)

theorem dropWhile_append_stop {p : Char → Bool} :
    ∀ (xs : List Char) (y : Char) (ys : List Char),
      (∀ c ∈ xs, p c = true) → p y = false →
      (xs ++ y :: ys).dropWhile p = y :: ys := by
  intro xs
  induction xs with
  | nil => intro y ys _ hy; simp [List.dropWhile, hy]
  | cons a l ih =>
      intro y ys hall hy
      have ha : p a = true := hall a (by simp)
      simp only [List.cons_append, List.dropWhile, ha]
      exact ih y ys (fun c hc => hall c (by simp [hc])) hy

theorem skipWs_cons_nonws {c : Char} (l : List Char) (h : isJsSpace c = false) :
    skipWs (c :: l) = c :: l := by
  simp [skipWs, List.dropWhile, h]

theorem ws_qm : isJsSpace qm = false := by decide

theorem skipWs_qm (l : List Char) : skipWs (qm :: l) = qm :: l :=
  skipWs_cons_nonws l (by decide)

theorem skipWs_colon (l : List Char) : skipWs (':' :: l) = ':' :: l :=
  skipWs_cons_nonws l (by decide)

theorem skipWs_comma (l : List Char) : skipWs (',' :: l) = ',' :: l :=
  skipWs_cons_nonws l (by decide)

theorem skipWs_rbrace (l : List Char) : skipWs ('}' :: l) = '}' :: l :=
  skipWs_cons_nonws l (by decide)

theorem st_tail {x : Char} {l : List Char}
    (h : splitOnTriple (x :: l) = none) : splitOnTriple l = none := by
  cases l with
  | nil => rfl
  | cons a t =>
      cases t with
      | nil => rfl
      | cons b t' =>
          unfold splitOnTriple at h
          by_cases hc : x = btick ∧ a = btick ∧ b = btick
          · rw [if_pos hc] at h; exact absurd h (by simp)
          · rw [if_neg hc] at h
            cases hs : splitOnTriple (a :: b :: t') with
            | none => rfl
            | some p => rw [hs] at h; exact absurd h (by simp)

theorem st_head_none {c : Char} {ys : List Char} (hc : c ≠ btick)
    (hys : splitOnTriple ys = none) : splitOnTriple (c :: ys) = none := by
  cases ys with
  | nil => rfl
  | cons a t =>
      cases t with
      | nil => rfl
      | cons b t' =>
          unfold splitOnTriple
          rw [if_neg (fun hcon => hc hcon.1), hys]

theorem st_no_btick_window {x c h1 h2 : Char} {xs' ys t2 : List Char}
    (hc : c ≠ btick) (hxs : splitOnTriple (x :: xs') = none)
    (hl : xs' ++ c :: ys = h1 :: h2 :: t2)
    (hx : x = btick) (h1b : h1 = btick) (h2b : h2 = btick) : False := by
  cases xs' with
  | nil =>
      injection hl with e1 _
      exact hc (e1.trans h1b)
  | cons a t =>
      injection hl with e1 e2
      cases t with
      | nil =>
          injection e2 with e3 _
          exact hc (e3.trans h2b)
      | cons a2 t' =>
          injection e2 with e3 _
          unfold splitOnTriple at hxs
          rw [if_pos ⟨hx, e1.trans h1b, e3.trans h2b⟩] at hxs
          exact absurd hxs (by simp)

theorem st_append_none {c : Char} (hc : c ≠ btick) :
    ∀ (xs : List Char) {ys : List Char}, splitOnTriple xs = none →
      splitOnTriple ys = none → splitOnTriple (xs ++ c :: ys) = none := by
  intro xs
  induction xs with
  | nil => intro ys _ hys; exact st_head_none hc hys
  | cons x xs' ih =>
      intro ys hxs hys
      have hrec : splitOnTriple (xs' ++ c :: ys) = none := ih (st_tail hxs) hys
      show splitOnTriple (x :: (xs' ++ c :: ys)) = none
      cases hl : xs' ++ c :: ys with
      | nil => cases xs' <;> simp at hl
      | cons h1 t1 =>
          cases ht : t1 with
          | nil => rfl
          | cons h2 t2 =>
              rw [ht] at hl
              unfold splitOnTriple
              have hcond : ¬(x = btick ∧ h1 = btick ∧ h2 = btick) := by
                rintro ⟨hxb, h1b, h2b⟩
                exact st_no_btick_window hc hxs hl hxb h1b h2b
              rw [if_neg hcond]
              rw [hl] at hrec
              rw [hrec]

theorem st_append_end {c : Char} (hc : c ≠ btick) :
    ∀ (xs : List Char) (l : List Char), splitOnTriple xs = none →
      splitOnTriple (xs ++ c :: btick :: btick :: btick :: l)
        = some (xs ++ [c], l) := by
  intro xs
  induction xs with
  | nil =>
      intro l _
      show splitOnTriple (c :: btick :: btick :: btick :: l) = some ([c], l)
      unfold splitOnTriple
      rw [if_neg (fun hcon => hc hcon.1)]
      unfold splitOnTriple
      rw [if_pos ⟨rfl, rfl, rfl⟩]
  | cons x xs' ih =>
      intro l hxs
      have hrec := ih l (st_tail hxs)
      show splitOnTriple (x :: (xs' ++ c :: btick :: btick :: btick :: l))
        = some ((x :: xs') ++ [c], l)
      cases hl : xs' ++ c :: btick :: btick :: btick :: l with
      | nil => cases xs' <;> simp at hl
      | cons h1 t1 =>
          cases ht : t1 with
          | nil =>
              exfalso
              rw [ht] at hl
              have hlen := congrArg List.length hl
              simp [List.length_append] at hlen
              omega
          | cons h2 t2 =>
              rw [ht] at hl
              unfold splitOnTriple
              have hcond : ¬(x = btick ∧ h1 = btick ∧ h2 = btick) := by
                rintro ⟨hxb, h1b, h2b⟩
                exact st_no_btick_window hc hxs hl hxb h1b h2b
              rw [if_neg hcond]
              rw [hl] at hrec
              rw [hrec]
              simp

theorem qm_ne_btick : qm ≠ btick := by decide

theorem dropWhile_nonws_head {c : Char} (l : List Char)
    (h : isJsSpace c = false) : (c :: l).dropWhile isJsSpace = c :: l := by
  simp [List.dropWhile, h]

theorem jsTrimList_wrap {a b : Char} (mid : List Char)
    (ha : isJsSpace a = false) (hb : isJsSpace b = false) :
    jsTrimList (a :: mid ++ [b]) = a :: mid ++ [b] := by
  unfold jsTrimList
  rw [show a :: mid ++ [b] = a :: (mid ++ [b]) by simp]
  rw [dropWhile_nonws_head _ ha]
  rw [show a :: (mid ++ [b]) = (a :: mid) ++ [b] by simp]
  rw [List.reverse_append]
  simp only [List.reverse_cons, List.reverse_nil, List.nil_append,
    List.cons_append]
  rw [dropWhile_nonws_head _ hb]
  simp

theorem jsTrimList_wrap_nl {a b : Char} (mid : List Char)
    (ha : isJsSpace a = false) (hb : isJsSpace b = false) :
    jsTrimList ((a :: mid ++ [b]) ++ ['\n']) = a :: mid ++ [b] := by
  unfold jsTrimList
  rw [show (a :: mid ++ [b]) ++ ['\n'] = a :: (mid ++ [b] ++ ['\n']) by simp]
  rw [dropWhile_nonws_head _ ha]
  rw [show a :: (mid ++ [b] ++ ['\n']) = ((a :: mid) ++ [b]) ++ ['\n'] by simp]
  rw [List.reverse_append, List.reverse_append]
  simp only [List.reverse_cons, List.reverse_nil, List.nil_append,
    List.cons_append, List.singleton_append]
  rw [show ('\n' : Char) :: b :: (mid.reverse ++ [a])
        = '\n' :: (b :: (mid.reverse ++ [a])) by simp]
  show (List.dropWhile isJsSpace ('\n' :: b :: (mid.reverse ++ [a]))).reverse
    = a :: mid ++ [b]
  rw [show List.dropWhile isJsSpace ('\n' :: b :: (mid.reverse ++ [a]))
        = List.dropWhile isJsSpace (b :: (mid.reverse ++ [a])) by
      have hnl : isJsSpace '\n' = true := by decide
      simp [List.dropWhile, hnl]]
  rw [dropWhile_nonws_head _ hb]
  simp

theorem filter_nonzw {l : List Char} (h : ∀ c ∈ l, isZeroWidth c = false) :
    l.filter (fun c => !(isZeroWidth c)) = l :=
  List.filter_eq_self.mpr (by intro a ha; simp [h a ha])

theorem st_triple_head (l : List Char) :
    splitOnTriple (btick :: btick :: btick :: l) = some ([], l) := by
  unfold splitOnTriple
  rw [if_pos ⟨rfl, rfl, rfl⟩]

theorem tag_json (l : List Char) :
    stripJsonTag ('j' :: 's' :: 'o' :: 'n' :: l) = l := rfl

/-- `""` doubling inside a quoted CSV field
(`csv-stringify` escapes a quote by doubling it). -/
def doubleQ : List Char → List Char
  | [] => []
  | c :: rest => if c = qm then qm :: qm :: doubleQ rest else c :: doubleQ rest

/-- `csv-stringify` default quoting rule: a field is quoted iff it contains
the delimiter, a quote, or a record delimiter. -/
def csvQuoteNeeded (s : String) : Bool :=
  s.data.any (fun c => c = ',' || c = qm || c = '\n' || c = '\r')

/-- One CSV field as `csv-stringify` emits it. -/
def csvEscape (s : String) : String :=
  if csvQuoteNeeded s then ⟨qm :: (doubleQ s.data ++ [qm])⟩ else s

/-- Characters of one CSV record: comma-separated escaped fields plus the
`\n` record delimiter. -/
def csvRowChars : List String → List Char
  | [] => ['\n']
  | [s] => (csvEscape s).data ++ ['\n']
  | s :: t :: rest => (csvEscape s).data ++ ',' :: csvRowChars (t :: rest)

/-- `stringify([row])` of `csv-stringify/sync` with default options. -/
def csvStringifyRow (row : List String) : String := ⟨csvRowChars row⟩

/-- CSV-aware scan: number of record delimiters outside quotes, and the
quote state after the scan. -/
def csvScan : List Char → Bool → Nat × Bool
  | [], inQ => (0, inQ)
  | c :: rest, inQ =>
      if c = qm then csvScan rest (!inQ)
      else
        let p := csvScan rest inQ
        if c = '\n' ∧ inQ = false then (p.1 + 1, p.2) else p

/-- Number of CSV records in a ledger content string. -/
def csvRecordCount (s : String) : Nat := (csvScan s.data false).1

/-- A ledger content string is balanced when it ends outside any quoted
field. -/
def csvBalanced (s : String) : Bool := !(csvScan s.data false).2

theorem csvScan_append :
    ∀ (xs ys : List Char) (q : Bool),
      csvScan (xs ++ ys) q
        = ((csvScan xs q).1 + (csvScan ys (csvScan xs q).2).1,
           (csvScan ys (csvScan xs q).2).2) := by
  intro xs
  induction xs with
  | nil => intro ys q; simp [csvScan]
  | cons c rest ih =>
      intro ys q
      by_cases hc : c = qm
      · simp only [List.cons_append, csvScan, if_pos hc, List.append_eq]
        rw [ih]
      · by_cases hn : c = '\n' ∧ q = false
        · simp only [List.cons_append, csvScan, if_neg hc, if_pos hn,
            List.append_eq]
          rw [ih]
          simp [Nat.add_assoc, Nat.add_comm, Nat.add_left_comm]
        · simp only [List.cons_append, csvScan, if_neg hc, if_neg hn,
            List.append_eq]
          rw [ih]

theorem csvScan_doubleQ (tail : List Char) :
    ∀ (cs : List Char),
      csvScan (doubleQ cs ++ tail) true = csvScan tail true := by
  intro cs
  induction cs with
  | nil => simp [doubleQ]
  | cons c rest ih =>
      by_cases hc : c = qm
      · simp only [doubleQ, if_pos hc, List.cons_append, csvScan, if_pos rfl,
          Bool.not_true, Bool.not_false]
        exact ih
      · simp only [doubleQ, if_neg hc, List.cons_append, csvScan, if_neg hc]
        rw [if_neg (by simp)]
        exact ih

theorem csvScan_nospecial :
    ∀ (cs : List Char) (q : Bool), (∀ c ∈ cs, c ≠ qm ∧ c ≠ '\n') →
      csvScan cs q = (0, q) := by
  intro cs
  induction cs with
  | nil => intro q _; rfl
  | cons c rest ih =>
      intro q hall
      obtain ⟨h1, h2⟩ := hall c (by simp)
      simp only [csvScan, if_neg h1]
      rw [if_neg (by simp [h2])]
      simp [ih q (fun d hd => hall d (by simp [hd]))]

theorem csvScan_plain {s : String} (h : csvQuoteNeeded s = false) (q : Bool) :
    csvScan (csvEscape s).data q = (0, q) := by
  rw [csvEscape, if_neg (by simp [h])]
  apply csvScan_nospecial
  intro c hc
  unfold csvQuoteNeeded at h
  rw [List.any_eq_false] at h
  have hcc := h c hc
  simp only [Bool.or_eq_true, decide_eq_true_eq, not_or] at hcc
  exact ⟨hcc.1.1.2, hcc.1.2⟩

theorem csvScan_field (s : String) :
    csvScan (csvEscape s).data false = (0, false) := by
  by_cases h : csvQuoteNeeded s = true
  · rw [csvEscape, if_pos (by simp [h])]
    show csvScan (qm :: (doubleQ s.data ++ [qm])) false = (0, false)
    simp only [csvScan, if_pos rfl, Bool.not_false]
    rw [csvScan_doubleQ]
    simp [csvScan]
  · exact csvScan_plain (by simpa using h) false

theorem csvScan_row :
    ∀ (row : List String), csvScan (csvRowChars row) false = (1, false) := by
  intro row
  have hnl : ¬('\n' : Char) = qm := by decide
  induction row with
  | nil =>
      show csvScan ['\n'] false = (1, false)
      simp [csvScan, hnl]
  | cons s rest ih =>
      cases rest with
      | nil =>
          show csvScan ((csvEscape s).data ++ ['\n']) false = (1, false)
          rw [csvScan_append, csvScan_field]
          simp [csvScan, hnl]
      | cons t rest' =>
          show csvScan ((csvEscape s).data ++ ',' :: csvRowChars (t :: rest')) false
            = (1, false)
          rw [csvScan_append, csvScan_field]
          have hcq : ¬(',' : Char) = qm := by decide
          simp only [csvScan, if_neg hcq]
          rw [if_neg (by decide)]
          simpa using ih

/-- All characters are ASCII digits. -/
def allDigits (l : List Char) : Bool := l.all Char.isDigit

/-- Gregorian leap-year rule (as ECMAScript date arithmetic uses). -/
def isLeapYear (y : Nat) : Bool :=
  (y % 4 = 0 && !(y % 100 = 0)) || y % 400 = 0

/-- Days in a month, for date-string validation. -/
def daysInMonth (y m : Nat) : Nat :=
  if m = 2 then (if isLeapYear y then 29 else 28)
  else if m = 4 ∨ m = 6 ∨ m = 9 ∨ m = 11 then 30
  else 31

/-- `new Date(string)` on the ECMAScript date-only forms `YYYY`,
`YYYY-MM` and `YYYY-MM-DD` (the format the extraction contract mandates
for `invoice_date`): `some (year, month, day)` when the string is a valid
date of that shape, `none` when the resulting `Date` is invalid.
Time-extended and non-ISO date strings are outside the modelled domain. -/
def jsDateParse (s : String) : Option (Nat × Nat × Nat) :=
  match s.data.splitOn '-' with
  | [y] =>
      if y.length = 4 && allDigits y then some (natOfDigits y, 1, 1) else none
  | [y, m] =>
      if y.length = 4 && allDigits y && m.length = 2 && allDigits m then
        let mn := natOfDigits m
        if 1 ≤ mn && mn ≤ 12 then some (natOfDigits y, mn, 1) else none
      else none
  | [y, m, d] =>
      if y.length = 4 && allDigits y && m.length = 2 && allDigits m &&
          d.length = 2 && allDigits d then
        let mn := natOfDigits m
        let dn := natOfDigits d
        if 1 ≤ mn && mn ≤ 12 && 1 ≤ dn && dn ≤ daysInMonth (natOfDigits y) mn then
          some (natOfDigits y, mn, dn)
        else none
      else none
  | _ => none

/-- Two-digit zero padding, as `toISOString` renders months. -/
def pad2 (n : Nat) : String := if n < 10 then "0" ++ Nat.repr n else Nat.repr n

/-- Four-digit zero padding, as `toISOString` renders years 0–9999. -/
def pad4 (n : Nat) : String :=
  if n < 10 then "000" ++ Nat.repr n
  else if n < 100 then "00" ++ Nat.repr n
  else if n < 1000 then "0" ++ Nat.repr n
  else Nat.repr n

/-- The folder name `YYYY.MM` that
`new Date(d).toISOString().slice(0, 7).replace('-', '.')` produces. -/
def yearMonthString (y m : Nat) : String := pad4 y ++ "." ++ pad2 m

/-- The folder-name computation of `ensureYearMonthFolder`
(src/lib/onedrive.js lines 50–54): the falsy-parameter guard, then
`new Date(invoiceDate).toISOString().slice(0, 7).replace('-', '.')`;
an unparsable date makes `toISOString` throw `RangeError: Invalid time
value`. Non-string `invoice_date` values are outside the modelled domain
and fail like unparsable strings. -/
def resolveFolderName (v : JVal) : Except String String :=
  if jsFalsyV v then
    .error "Invalid parameters: client and invoiceDate are required"
  else
    match v with
    | .jstr s =>
        match jsDateParse s with
        | some (y, m, _) => .ok (yearMonthString y m)
        | none => .error "Invalid time value"
    | _ => .error "Invalid time value"

/-- The standard base64 alphabet. -/
def b64c (n : Nat) : Char :=
  ("ABCDEFGHIJKLMNOPQRSTUVWXYZabcdefghijklmnopqrstuvwxyz0123456789+/").data.getD n 'A'

/-- Base64 of a byte list (as `buffer.toString('base64')`). -/
def base64Chars : List Nat → List Char
  | [] => []
  | [a] => [b64c (a / 4), b64c (a % 4 * 16), '=', '=']
  | [a, b] => [b64c (a / 4), b64c (a % 4 * 16 + b / 16), b64c (b % 16 * 4), '=']
  | a :: b :: c :: rest =>
      b64c (a / 4) :: b64c (a % 4 * 16 + b / 16) ::
      b64c (b % 16 * 4 + c / 64) :: b64c (c % 64) :: base64Chars rest

/-- `buffer.toString('base64')`. -/
def base64Encode (buf : List Nat) : String := ⟨base64Chars buf⟩

/-- A raw attachment: buffer bytes, declared filename, declared MIME type. -/
structure Att where
  buffer : List Nat
  filename : String
  contentType : String

/-- The remote PDF extractor's HTTP response (lib variant). -/
structure FetchResp where
  ok : Bool
  status : Nat
  statusText : String
  bodyText : String

/-- One attachment-processing run's collaborator behaviours: each network
call either yields a value or throws (`Except.error` carries the thrown
message). `now` is the clock value `new Date().toISOString()` reads for
the ledger timestamp. -/
structure Env where
  pdfFetch : Except String FetchResp
  pdfLocal : Except String String
  aiImg : Except String String
  aiPdf : Except String String
  graph : Except String Unit
  folderCreate : Except String Unit
  upload : Except String Unit
  csvCreate : Except String Unit
  csvDownload : Except String Unit
  csvUpload : Except String Unit
  now : String

/-- The OneDrive state this pipeline touches: year-month folders under
/Invoices, uploaded files per folder, and one `invoices.csv` content per
folder (folder and file identifiers are keyed by folder name). -/
structure Drive where
  folders : String → Bool
  files : String → String → Option (List Nat)
  csvs : String → Option String

/-- Observable extraction-side external calls: the remote PDF fetch, the
local pdf-parse invocation, and the two AI requests (the image request
records the data URI it embeds). -/
inductive Event where
  | fetchPdf
  | pdfParse
  | aiImage (url : String)
  | aiPdf
deriving DecidableEq, Repr

/-- `ProcessingOutcome`: `{ ok, filename }` plus an optional `error`
message (present exactly on failures). -/
structure Outcome where
  ok : Bool
  filename : String
  error : Option String
deriving DecidableEq, Repr

/-- `ensureYearMonthFolder` (src/lib/onedrive.js lines 49–75): compute the
`YYYY.MM` name from the invoice date, return the existing folder if the
GET finds it, otherwise create it (wrapping a creation failure). -/
def ensureYearMonthFolderE (env : Env) (st : Drive) (v : JVal) :
    Except String (String × Drive) :=
  match resolveFolderName v with
  | .error m => .error m
  | .ok ym =>
      if st.folders ym then .ok (ym, st)
      else
        match env.folderCreate with
        | .error m => .error ("Failed to create directory '" ++ ym ++ "': " ++ m)
        | .ok _ =>
            .ok (ym, { st with
              folders := fun x => if x = ym then true else st.folders x })

/-- `uploadFile` (src/lib/onedrive.js lines 87–100): parameter guard, then
PUT the buffer at the folder/filename path, overwriting. -/
def uploadFileE (env : Env) (st : Drive) (folderId fn : String)
    (buf : List Nat) : Except String Drive :=
  if fn = "" then
    .error "Invalid parameters: client, folderId, filename and buffer are required"
  else
    match env.upload with
    | .error m => .error ("File upload failed for '" ++ fn ++ "': " ++ m)
    | .ok _ =>
        .ok { st with
          files := fun f n =>
            if f = folderId ∧ n = fn then some buf else st.files f n }

/-- The six-column ledger header row (src/lib/csvDrive.js lines 33–35). -/
def csvHeader : String :=
  csvStringifyRow ["Timestamp", "Invoice Date", "Seller", "Total", "Tax",
    "Payment Method"]

/-- `ensureCsvFile` (src/lib/csvDrive.js lines 23–43): return the existing
`invoices.csv` of the folder, else create it with the fixed header. -/
def ensureCsvFileE (env : Env) (st : Drive) (folderId : String) :
    Except String (String × Drive) :=
  match st.csvs folderId with
  | some _ => .ok (folderId, st)
  | none =>
      match env.csvCreate with
      | .error m => .error m
      | .ok _ =>
          .ok (folderId, { st with
            csvs := fun f => if f = folderId then some csvHeader else st.csvs f })

/-- `appendCsvRow` (src/lib/csvDrive.js lines 52–68): download the full
content, append `stringify([row])` in memory, upload the whole content
back. -/
def appendCsvRowE (env : Env) (st : Drive) (fileId : String)
    (row : List String) : Except String Drive :=
  match st.csvs fileId with
  | none => .error "itemNotFound"
  | some existing =>
      match env.csvDownload with
      | .error m => .error m
      | .ok _ =>
          match env.csvUpload with
          | .error m => .error m
          | .ok _ =>
              .ok { st with
                csvs := fun f =>
                  if f = fileId then some (existing ++ csvStringifyRow row)
                  else st.csvs f }

/-- A ledger cell as `csv-stringify` casts the row values
(`undefined`/`null` → empty, booleans → `1`/empty, numbers → decimal). -/
def cellOf : Option JVal → String
  | none => ""
  | some (.jstr s) => s
  | some (.jnum q) => ratToJsString q
  | some (.jbool b) => if b then "1" else ""
  | some .jnull => ""

/-- The message of the `SyntaxError` that `JSON.parse` throws on
unparsable input (its exact wording is engine-specific). -/
def parseErrMsg : String := "Unexpected token in JSON"

/-- `extractFromImage` of src/lib/invoiceProcessor.js lines 74–103: the
data URI is hardcoded to `image/png`; the AI response is fence-stripped,
JSON-parsed and key-migrated. -/
def extractFromImage (env : Env) (buf : List Nat) :
    Except String Rec × List Event :=
  let url := "data:image/png;base64," ++ base64Encode buf
  match env.aiImg with
  | .error m => (.error m, [Event.aiImage url])
  | .ok content =>
      match jsonParse (stripFence content) with
      | none => (.error parseErrMsg, [Event.aiImage url])
      | some o => (.ok (normalizeTotal (toRec o)), [Event.aiImage url])

/-- `extractFromPdf` of src/lib/invoiceProcessor.js lines 105–133: POST to
the remote extractor, fail on non-2xx, then send the text to the AI with
no empty-text check. -/
def extractFromPdf (env : Env) : Except String Rec × List Event :=
  match env.pdfFetch with
  | .error m => (.error m, [Event.fetchPdf])
  | .ok r =>
      if !r.ok then
        (.error ("PDF extractor failed: " ++ Nat.repr r.status ++ " "
          ++ r.statusText), [Event.fetchPdf])
      else
        match env.aiPdf with
        | .error m => (.error m, [Event.fetchPdf, Event.aiPdf])
        | .ok content =>
            match jsonParse (stripFence content) with
            | none => (.error parseErrMsg, [Event.fetchPdf, Event.aiPdf])
            | some o =>
                (.ok (normalizeTotal (toRec o)), [Event.fetchPdf, Event.aiPdf])

/-- `extractFromImage` of src/unnamed/part_001 lines 91–116: identical to
the lib variant except the data URI is tagged with the declared content
type. -/
def extractFromImageV2 (env : Env) (buf : List Nat) (contentType : String) :
    Except String Rec × List Event :=
  let url := "data:" ++ contentType ++ ";base64," ++ base64Encode buf
  match env.aiImg with
  | .error m => (.error m, [Event.aiImage url])
  | .ok content =>
      match jsonParse (stripFence content) with
      | none => (.error parseErrMsg, [Event.aiImage url])
      | some o => (.ok (normalizeTotal (toRec o)), [Event.aiImage url])

/-- `extractFromPdf` + `parsePdfLocally` of src/unnamed/part_001 lines
118–148: buffer guard, local pdf-parse, hard failure when the text trims
to empty, then the AI call. -/
def extractFromPdfV2 (env : Env) (buf : List Nat) :
    Except String Rec × List Event :=
  if buf.isEmpty then
    (.error "Invalid or empty buffer passed to parsePdfLocally", [])
  else
    match env.pdfLocal with
    | .error m => (.error m, [Event.pdfParse])
    | .ok text =>
        if jsTrim text = "" then
          (.error "Local PDF parse produced no text", [Event.pdfParse])
        else
          match env.aiPdf with
          | .error m => (.error m, [Event.pdfParse, Event.aiPdf])
          | .ok content =>
              match jsonParse (stripFence content) with
              | none => (.error parseErrMsg, [Event.pdfParse, Event.aiPdf])
              | some o =>
                  (.ok (normalizeTotal (toRec o)), [Event.pdfParse, Event.aiPdf])

/-- The ledger row `[now, invoice_date, seller, total, tax, payment_method]`
(src/lib/invoiceProcessor.js lines 28–35). -/
def ledgerRow (env : Env) (data : Rec) : List String :=
  [env.now, cellOf (data "invoice_date"), cellOf (data "seller"),
   cellOf (data "total"), cellOf (data "tax"), cellOf (data "payment_method")]

/-- The commit sequence of `processAttachment`
(src/lib/invoiceProcessor.js lines 23–35): Graph client, folder, upload,
ledger-ensure, ledger-append. On a failure the state mutated so far is
kept (no rollback). -/
def commit (env : Env) (st : Drive) (data : Rec) (fn : String)
    (buf : List Nat) : Drive × Except String Unit :=
  match env.graph with
  | .error m => (st, .error m)
  | .ok _ =>
      match ensureYearMonthFolderE env st ((data "invoice_date").getD JVal.jnull) with
      | .error m => (st, .error m)
      | .ok (ym, st1) =>
          match uploadFileE env st1 ym fn buf with
          | .error m => (st1, .error m)
          | .ok st2 =>
              match ensureCsvFileE env st2 ym with
              | .error m => (st2, .error m)
              | .ok (csvId, st3) =>
                  match appendCsvRowE env st3 csvId (ledgerRow env data) with
                  | .error m => (st3, .error m)
                  | .ok st4 => (st4, .ok ())

/-- `processAttachment` of src/lib/invoiceProcessor.js lines 11–43:
sanitize the filename, branch on whether the content type contains
`"pdf"` (everything else goes to the image extractor), validate, commit;
every thrown error is caught and returned as `{ ok: false, filename,
error }`. -/
def processAttachment (env : Env) (st : Drive) (att : Att) :
    Outcome × Drive × List Event :=
  let fn := sanitizeFilename att.filename
  match (if jsIncludes att.contentType "pdf" then extractFromPdf env
         else extractFromImage env att.buffer) with
  | (.error m, evs) => (⟨false, fn, some m⟩, st, evs)
  | (.ok data, evs) =>
      if validRecord data then
        match commit env st data fn att.buffer with
        | (st2, .error m) => (⟨false, fn, some m⟩, st2, evs)
        | (st2, .ok _) => (⟨true, fn, none⟩, st2, evs)
      else (⟨false, fn, some "Missing invoice_date or total in AI output"⟩, st, evs)

/-- `processAttachment` of src/unnamed/part_001 lines 17–58 (modelled with
a supplied AI client, as every caller in the repository passes one):
PDF content types go to the local PDF extractor, `image/*` to the image
extractor with the declared MIME type, anything else fails immediately
with `Unsupported content type`. -/
def processAttachmentV2 (env : Env) (st : Drive) (att : Att) :
    Outcome × Drive × List Event :=
  let fn := sanitizeFilename att.filename
  match (if jsIncludes att.contentType "pdf" then extractFromPdfV2 env att.buffer
         else if jsStartsWith att.contentType "image/" then
           extractFromImageV2 env att.buffer att.contentType
         else (.error ("Unsupported content type: " ++ att.contentType), [])) with
  | (.error m, evs) => (⟨false, fn, some m⟩, st, evs)
  | (.ok data, evs) =>
      if validRecord data then
        match commit env st data fn att.buffer with
        | (st2, .error m) => (⟨false, fn, some m⟩, st2, evs)
        | (st2, .ok _) => (⟨true, fn, none⟩, st2, evs)
      else (⟨false, fn, some "Missing invoice_date or total in AI output"⟩, st, evs)

/-- A complete, parseable AI response. -/
def okJsonText : String :=
  "\x7b\"invoice_date\":\"2025-07-03\",\"seller\":\"ACME\",\"total\":\"10.00\",\"tax\":\"\",\"payment_method\":\"Cash\"\x7d"

/-- An AI response whose `total` is empty (fails validation). -/
def badJsonText : String :=
  "\x7b\"invoice_date\":\"2025-03-01\",\"seller\":\"Acme\",\"total\":\"\",\"tax\":\"\",\"payment_method\":\"\"\x7d"

/-- An environment in which every collaborator call succeeds. -/
def envOk : Env :=
  ⟨.ok ⟨true, 200, "OK", "pdf text"⟩, .ok "pdf text", .ok okJsonText,
   .ok okJsonText, .ok (), .ok (), .ok (), .ok (), .ok (), .ok (),
   "2025-07-04T00:00:00.000Z"⟩

/-- An environment in which every collaborator call throws. -/
def envDown : Env :=
  ⟨.error "down", .error "down", .error "down", .error "down", .error "down",
   .error "down", .error "down", .error "down", .error "down", .error "down",
   "2025-07-04T00:00:00.000Z"⟩

/-- The empty OneDrive state. -/
def drive0 : Drive := ⟨fun _ => false, fun _ _ => none, fun _ => none⟩

theorem ensureYMF_ok {env : Env} {st : Drive} {v : JVal} {ym : String}
    {st' : Drive} (h : ensureYearMonthFolderE env st v = Except.ok (ym, st')) :
    resolveFolderName v = Except.ok ym ∧ st'.folders ym = true ∧
      st'.files = st.files ∧ st'.csvs = st.csvs := by
  unfold ensureYearMonthFolderE at h
  cases hr : resolveFolderName v with
  | error m => rw [hr] at h; exact absurd h (by simp)
  | ok ymv =>
      rw [hr] at h
      dsimp only at h
      by_cases hf : st.folders ymv = true
      · rw [if_pos hf] at h
        injection h with hpair
        injection hpair with h1 h2
        subst h1
        exact ⟨rfl, h2 ▸ hf, h2 ▸ rfl, h2 ▸ rfl⟩
      · rw [if_neg hf] at h
        cases hc : env.folderCreate with
        | error m => rw [hc] at h; exact absurd h (by simp)
        | ok u =>
            rw [hc] at h
            injection h with hpair
            injection hpair with h1 h2
            subst h1
            refine ⟨rfl, ?_, ?_, ?_⟩
            · rw [← h2]; simp
            · rw [← h2]
            · rw [← h2]

theorem uploadFileE_ok {env : Env} {st : Drive} {folderId fn : String}
    {buf : List Nat} {st' : Drive}
    (h : uploadFileE env st folderId fn buf = Except.ok st') :
    st'.files folderId fn = some buf ∧ st'.folders = st.folders ∧
      st'.csvs = st.csvs := by
  unfold uploadFileE at h
  by_cases hfn : fn = ""
  · rw [if_pos hfn] at h; exact absurd h (by simp)
  · rw [if_neg hfn] at h
    cases hu : env.upload with
    | error m => rw [hu] at h; exact absurd h (by simp)
    | ok u =>
        rw [hu] at h
        injection h with h1
        refine ⟨?_, ?_, ?_⟩
        · rw [← h1]; simp
        · rw [← h1]
        · rw [← h1]

theorem ensureCsvFileE_files {env : Env} {st : Drive} {folderId : String}
    {r : String × Drive} (h : ensureCsvFileE env st folderId = Except.ok r) :
    r.2.files = st.files ∧ r.2.folders = st.folders := by
  unfold ensureCsvFileE at h
  cases hcs : st.csvs folderId with
  | some c => rw [hcs] at h; injection h with h1; rw [← h1]; exact ⟨rfl, rfl⟩
  | none =>
      rw [hcs] at h
      cases hc : env.csvCreate with
      | error m => rw [hc] at h; exact absurd h (by simp)
      | ok u =>
          rw [hc] at h
          injection h with h1
          rw [← h1]
          exact ⟨rfl, rfl⟩

theorem appendCsvRowE_files {env : Env} {st : Drive} {fileId : String}
    {row : List String} {st' : Drive}
    (h : appendCsvRowE env st fileId row = Except.ok st') :
    st'.files = st.files ∧ st'.folders = st.folders := by
  unfold appendCsvRowE at h
  cases hcs : st.csvs fileId with
  | none => rw [hcs] at h; exact absurd h (by simp)
  | some c =>
      rw [hcs] at h
      cases hd : env.csvDownload with
      | error m => rw [hd] at h; exact absurd h (by simp)
      | ok u =>
          rw [hd] at h
          cases hu : env.csvUpload with
          | error m => rw [hu] at h; exact absurd h (by simp)
          | ok u2 =>
              rw [hu] at h
              injection h with h1
              rw [← h1]
              exact ⟨rfl, rfl⟩

/-- C1: the destination folder identifier is the `YYYY.MM` year-month of
the extracted `invoice_date` (so `"2025-07-03"` resolves to `"2025.07"`):
an unparsable `invoice_date` raises the explicit `RangeError` instead of
defaulting to the current date, a parsable one determines the folder name
by its year and month alone, `ensureYearMonthFolder` returns exactly that
identifier and is independent of the clock, and every attachment that
reaches a successful commit has its file stored under that folder. -/
theorem c1_folder_resolution :
    resolveFolderName (JVal.jstr "2025-07-03") = Except.ok "2025.07"
    ∧ (∀ s, s ≠ "" → jsDateParse s = none →
        resolveFolderName (JVal.jstr s) = Except.error "Invalid time value")
    ∧ (∀ s y m d, jsDateParse s = some (y, m, d) →
        resolveFolderName (JVal.jstr s) = Except.ok (yearMonthString y m))
    ∧ (∀ env st v ym st',
        ensureYearMonthFolderE env st v = Except.ok (ym, st') →
        resolveFolderName v = Except.ok ym ∧ st'.folders ym = true)
    ∧ (∀ env st v now',
        ensureYearMonthFolderE { env with now := now' } st v
          = ensureYearMonthFolderE env st v)
    ∧ (∀ env st data fn buf st',
        commit env st data fn buf = (st', Except.ok ()) →
        ∃ ym, resolveFolderName ((data "invoice_date").getD JVal.jnull)
            = Except.ok ym ∧ st'.files ym fn = some buf) := by
  refine ⟨rfl, ?_, ?_, ?_, ?_, ?_⟩
  · intro s hne hp
    unfold resolveFolderName
    rw [if_neg (by simp [jsFalsyV, hne])]
    dsimp only
    rw [hp]
  · intro s y m d hp
    have hne : s ≠ "" := by
      intro hs
      rw [hs, show jsDateParse "" = none from rfl] at hp
      exact Option.noConfusion hp
    unfold resolveFolderName
    rw [if_neg (by simp [jsFalsyV, hne])]
    dsimp only
    rw [hp]
  · intro env st v ym st' h
    exact ⟨(ensureYMF_ok h).1, (ensureYMF_ok h).2.1⟩
  · intro env st v now'
    rfl
  · intro env st data fn buf st' h
    unfold commit at h
    cases hg : env.graph with
    | error m => rw [hg] at h; exact absurd h (by simp)
    | ok u =>
        rw [hg] at h
        cases hens : ensureYearMonthFolderE env st
            ((data "invoice_date").getD JVal.jnull) with
        | error m => rw [hens] at h; exact absurd h (by simp)
        | ok p =>
            obtain ⟨ym, st1⟩ := p
            rw [hens] at h
            dsimp only at h
            cases hup : uploadFileE env st1 ym fn buf with
            | error m => rw [hup] at h; exact absurd h (by simp)
            | ok st2 =>
                rw [hup] at h
                dsimp only at h
                cases hcsv : ensureCsvFileE env st2 ym with
                | error m => rw [hcsv] at h; exact absurd h (by simp)
                | ok p2 =>
                    obtain ⟨csvId, st3⟩ := p2
                    rw [hcsv] at h
                    dsimp only at h
                    cases happ : appendCsvRowE env st3 csvId
                        (ledgerRow env data) with
                    | error m => rw [happ] at h; exact absurd h (by simp)
                    | ok st4 =>
                        rw [happ] at h
                        dsimp only at h
                        injection h with h1 h2
                        refine ⟨ym, (ensureYMF_ok hens).1, ?_⟩
                        rw [← h1]
                        have hf4 := (appendCsvRowE_files happ).1
                        have hf3 := (ensureCsvFileE_files hcsv).1
                        rw [hf4, hf3]
                        exact (uploadFileE_ok hup).1

/-- Witness for C1: a syntactically dateish but invalid string fails with
the explicit error, and a valid leap-day date resolves to its year-month. -/
theorem c1_witness :
    resolveFolderName (JVal.jstr "2025-99-99") = Except.error "Invalid time value"
    ∧ resolveFolderName (JVal.jstr "2024-02-29") = Except.ok "2024.02" := by
  constructor
  · exact c1_folder_resolution.2.1 "2025-99-99" (by decide) (by decide)
  · have h := c1_folder_resolution.2.2.1 "2024-02-29" 2024 2 29 (by decide)
    rwa [show yearMonthString 2024 2 = "2024.02" by decide] at h

/-- C3: for every attachment and every collaborator behaviour — including
throwing AI, PDF-extractor and storage calls — `processAttachment`
resolves to `{ ok: true, filename }` or `{ ok: false, filename, error }`
with a message string, and to no other shape; nothing escapes the
orchestrator boundary. -/
theorem c3_outcome_shape (env : Env) (st : Drive) (att : Att) :
    (∃ st2 evs, processAttachment env st att
        = (⟨true, sanitizeFilename att.filename, none⟩, st2, evs)) ∨
    (∃ m st2 evs, processAttachment env st att
        = (⟨false, sanitizeFilename att.filename, some m⟩, st2, evs)) := by
  unfold processAttachment
  cases hx : (if jsIncludes att.contentType "pdf" then extractFromPdf env
              else extractFromImage env att.buffer) with
  | mk res evs =>
      cases res with
      | error m => exact Or.inr ⟨m, st, evs, rfl⟩
      | ok data =>
          dsimp only
          by_cases hv : validRecord data = true
          · rw [if_pos hv]
            cases hc : commit env st data (sanitizeFilename att.filename)
                att.buffer with
            | mk st2 r =>
                cases r with
                | error m => exact Or.inr ⟨m, st2, evs, rfl⟩
                | ok u => exact Or.inl ⟨st2, evs, rfl⟩
          · rw [if_neg hv]
            exact Or.inr ⟨_, st, evs, rfl⟩

/-- C10: every outcome of `processAttachment` — failures included —
carries the sanitized filename: sanitization is the first step inside the
`try` and cannot throw, and the `catch` reads the reassigned variable. -/
theorem c10_sanitized_filename_in_outcome (env : Env) (st : Drive) (att : Att) :
    (processAttachment env st att).1.filename = sanitizeFilename att.filename := by
  unfold processAttachment
  cases hx : (if jsIncludes att.contentType "pdf" then extractFromPdf env
              else extractFromImage env att.buffer) with
  | mk res evs =>
      cases res with
      | error m => rfl
      | ok data =>
          dsimp only
          by_cases hv : validRecord data = true
          · rw [if_pos hv]
            cases hc : commit env st data (sanitizeFilename att.filename)
                att.buffer with
            | mk st2 r => cases r with
              | error m => rfl
              | ok u => rfl
          · rw [if_neg hv]

/-- Counterexample to C2 as stated: in the src/lib/invoiceProcessor.js
variant a `application/zip` attachment is routed to the image extractor —
an AI call is made (and with cooperative collaborators the attachment
even commits successfully) instead of the immediate failure the claim
requires. -/
theorem c2_lib_zip_counterexample :
    (processAttachment envOk drive0 ⟨[], "inv.zip", "application/zip"⟩).1.ok
      = true ∧
    (processAttachment envOk drive0 ⟨[], "inv.zip", "application/zip"⟩).2.2
      = [Event.aiImage "data:image/png;base64,"] := by
  constructor
  · rfl
  · rfl

/-- C2 as amended: the unsupported-content-type guard exists only in the
part_000/part_001 variant (`processAttachmentV2`): there, a content type
that is neither PDF nor `image/*` fails immediately with the explicit
error, no extraction or AI event occurs, and the drive state is
untouched. -/
theorem c2_unsupported_type_amended (env : Env) (st : Drive) (att : Att)
    (h1 : jsIncludes att.contentType "pdf" = false)
    (h2 : jsStartsWith att.contentType "image/" = false) :
    processAttachmentV2 env st att
      = (⟨false, sanitizeFilename att.filename,
          some ("Unsupported content type: " ++ att.contentType)⟩, st, []) := by
  unfold processAttachmentV2
  rw [if_neg (by simp [h1]), if_neg (by simp [h2])]

/-- Witness for the amended C2 at the spec's own scenario input. -/
theorem c2_witness :
    processAttachmentV2 envDown drive0 ⟨[], "inv.zip", "application/zip"⟩
      = (⟨false, "inv.zip", some "Unsupported content type: application/zip"⟩,
         drive0, []) :=
  c2_unsupported_type_amended envDown drive0 ⟨[], "inv.zip", "application/zip"⟩
    (by decide) (by decide)

/-- The environment of the C8 counterexample: the remote PDF extractor
succeeds with an empty body, the AI call then throws. -/
def envEmptyPdf : Env :=
  { envDown with pdfFetch := .ok ⟨true, 200, "OK", ""⟩, aiPdf := .error "ai down" }

/-- Counterexample to C8 as stated: in the src/lib/invoiceProcessor.js
variant (remote extraction strategy) there is no empty-text check — the
AI call is still made after the extractor returns empty text, and the
failure that surfaces is the AI error, not a no-text error. -/
theorem c8_lib_empty_text_counterexample :
    (processAttachment envEmptyPdf drive0 ⟨[0], "a.pdf", "application/pdf"⟩).2.2
      = [Event.fetchPdf, Event.aiPdf] ∧
    (processAttachment envEmptyPdf drive0 ⟨[0], "a.pdf", "application/pdf"⟩).1.error
      = some "ai down" := by
  constructor
  · rfl
  · rfl

/-- C8 as amended: in the part_001 variant (`processAttachmentV2`, local
extraction strategy) a PDF whose extracted text trims to empty fails with
the no-text error, the AI is never called, and the drive is untouched. -/
theorem c8_empty_text_amended (env : Env) (st : Drive) (att : Att) (t : String)
    (h1 : jsIncludes att.contentType "pdf" = true)
    (h2 : att.buffer ≠ [])
    (h3 : env.pdfLocal = Except.ok t) (h4 : jsTrim t = "") :
    processAttachmentV2 env st att
      = (⟨false, sanitizeFilename att.filename,
          some "Local PDF parse produced no text"⟩, st, [Event.pdfParse]) := by
  unfold processAttachmentV2
  rw [if_pos (by simp [h1])]
  unfold extractFromPdfV2
  rw [if_neg (by simp [List.isEmpty_iff, h2])]
  rw [h3]
  dsimp only
  rw [if_pos (by simp [h4])]

/-- Witness for the amended C8: whitespace-only extracted text. -/
theorem c8_witness :
    processAttachmentV2 { envDown with pdfLocal := .ok "  " } drive0
      ⟨[0], "a.pdf", "application/pdf"⟩
      = (⟨false, "a.pdf", some "Local PDF parse produced no text"⟩, drive0,
         [Event.pdfParse]) :=
  c8_empty_text_amended { envDown with pdfLocal := .ok "  " } drive0
    ⟨[0], "a.pdf", "application/pdf"⟩ "  " (by decide) (by decide) rfl (by decide)

theorem extractFromImageV2_events (env : Env) (buf : List Nat) (ct : String) :
    (extractFromImageV2 env buf ct).2
      = [Event.aiImage ("data:" ++ ct ++ ";base64," ++ base64Encode buf)] := by
  unfold extractFromImageV2
  cases env.aiImg with
  | error m => rfl
  | ok content =>
      dsimp only
      cases jsonParse (stripFence content) <;> rfl

/-- Counterexample to C9 as stated: in the src/lib/invoiceProcessor.js
variant a JPEG attachment's data URI is tagged `image/png` — the
hardcoded default — not the declared `image/jpeg`. -/
theorem c9_lib_mime_counterexample :
    (processAttachment envDown drive0 ⟨[], "a.jpg", "image/jpeg"⟩).2.2
      = [Event.aiImage "data:image/png;base64,"] ∧
    (processAttachment envDown drive0 ⟨[], "a.jpg", "image/jpeg"⟩).2.2
      ≠ [Event.aiImage ("data:" ++ "image/jpeg" ++ ";base64,"
          ++ base64Encode [])] := by
  constructor
  · rfl
  · intro h
    have := List.head_eq_of_cons_eq h
    exact absurd (by injection this) (by decide)

/-- C9 as amended: in the part_000/part_001 variant
(`processAttachmentV2`) every image attachment's AI request embeds a data
URI tagged with the attachment's declared content type followed by the
base64 of its buffer. -/
theorem c9_mime_tag_amended (env : Env) (st : Drive) (att : Att)
    (h1 : jsIncludes att.contentType "pdf" = false)
    (h2 : jsStartsWith att.contentType "image/" = true) :
    (processAttachmentV2 env st att).2.2
      = [Event.aiImage ("data:" ++ att.contentType ++ ";base64,"
          ++ base64Encode att.buffer)] := by
  unfold processAttachmentV2
  rw [if_neg (by simp [h1]), if_pos (by simp [h2])]
  cases hx : extractFromImageV2 env att.buffer att.contentType with
  | mk res evs =>
      have hevs : evs
          = [Event.aiImage ("data:" ++ att.contentType ++ ";base64,"
              ++ base64Encode att.buffer)] := by
        have := extractFromImageV2_events env att.buffer att.contentType
        rw [hx] at this
        exact this
      cases res with
      | error m => exact hevs
      | ok data =>
          dsimp only
          by_cases hv : validRecord data = true
          · rw [if_pos hv]
            cases commit env st data (sanitizeFilename att.filename) att.buffer with
            | mk st2 r => cases r with
              | error m => exact hevs
              | ok u => exact hevs
          · rw [if_neg hv]
            exact hevs

/-- Witness for the amended C9: a JPEG attachment gets a `data:image/jpeg`
URI. -/
theorem c9_witness :
    (processAttachmentV2 envDown drive0 ⟨[77, 97, 110], "a.jpg", "image/jpeg"⟩).2.2
      = [Event.aiImage "data:image/jpeg;base64,TWFu"] := by
  have h := c9_mime_tag_amended envDown drive0 ⟨[77, 97, 110], "a.jpg", "image/jpeg"⟩
    (by decide) (by decide)
  rwa [show ("data:" ++ "image/jpeg" ++ ";base64," ++ base64Encode [77, 97, 110])
        = "data:image/jpeg;base64,TWFu" by decide] at h

/-- C4: validation passes iff both `invoice_date` and `total` are
non-empty (other fields may be empty — they are not consulted), and an
attachment whose extracted record fails validation ends as a terminal
failure with the validation message, with the drive state untouched — no
upload and no ledger mutation. -/
theorem c4_validation_gate :
    (∀ (r : Rec) (d t : String), r "invoice_date" = some (JVal.jstr d) →
        r "total" = some (JVal.jstr t) →
        (validRecord r = true ↔ (d ≠ "" ∧ t ≠ ""))) ∧
    (∀ (env : Env) (st : Drive) (att : Att) (txt : String) (o : JObj),
        jsIncludes att.contentType "pdf" = false →
        env.aiImg = Except.ok txt →
        jsonParse (stripFence txt) = some o →
        validRecord (normalizeTotal (toRec o)) = false →
        processAttachment env st att
          = (⟨false, sanitizeFilename att.filename,
              some "Missing invoice_date or total in AI output"⟩, st,
             [Event.aiImage ("data:image/png;base64,"
               ++ base64Encode att.buffer)])) := by
  constructor
  · intro r d t h1 h2
    unfold validRecord jsFalsyO jsFalsyV
    rw [h1, h2]
    simp
  · intro env st att txt o hpdf hai hparse hv
    unfold processAttachment
    rw [if_neg (by simp [hpdf])]
    unfold extractFromImage
    rw [hai]
    dsimp only
    rw [hparse]
    dsimp only
    rw [if_neg (by simp [hv])]

/-- The environment of the C4 witness: the AI returns a record whose
`total` is empty. -/
def envBadTotal : Env := { envOk with aiImg := .ok badJsonText }

/-- Witness for C4: the validation equivalence at a concrete record, and
the spec's missing-total scenario ending as a validation failure with no
storage change. -/
theorem c4_witness :
    (validRecord (toRec [("invoice_date", JVal.jstr "2025-03-01"),
        ("total", JVal.jstr "10.00")]) = true
      ↔ (("2025-03-01" : String) ≠ "" ∧ ("10.00" : String) ≠ "")) ∧
    processAttachment envBadTotal drive0 ⟨[], "a.png", "image/png"⟩
      = (⟨false, "a.png",
          some "Missing invoice_date or total in AI output"⟩, drive0,
         [Event.aiImage "data:image/png;base64,"]) := by
  constructor
  · exact c4_validation_gate.1 _ "2025-03-01" "10.00" (by decide) (by decide)
  · exact c4_validation_gate.2 envBadTotal drive0 ⟨[], "a.png", "image/png"⟩
      badJsonText
      [("invoice_date", JVal.jstr "2025-03-01"), ("seller", JVal.jstr "Acme"),
       ("total", JVal.jstr ""), ("tax", JVal.jstr ""),
       ("payment_method", JVal.jstr "")]
      (by decide) rfl (by decide) (by decide)

/-- C5: appending a ledger row writes back exactly the previous content
followed by the single CSV record for the row — the old content survives
byte-for-byte as a prefix, the record count grows by exactly one, and
nothing else on the drive changes. -/
theorem c5_ledger_append (env : Env) (st : Drive) (fid : String)
    (row : List String) (c : String)
    (h : st.csvs fid = some c) (hb : csvBalanced c = true)
    (hd : env.csvDownload = Except.ok ()) (hu : env.csvUpload = Except.ok ()) :
    ∃ st', appendCsvRowE env st fid row = Except.ok st' ∧
      st'.csvs fid = some (c ++ csvStringifyRow row) ∧
      c.data.isPrefixOf (c ++ csvStringifyRow row).data = true ∧
      csvRecordCount (c ++ csvStringifyRow row) = csvRecordCount c + 1 ∧
      (∀ g, g ≠ fid → st'.csvs g = st.csvs g) ∧
      (∀ f n, st'.files f n = st.files f n) ∧
      (∀ f, st'.folders f = st.folders f) := by
  unfold appendCsvRowE
  rw [h, hd, hu]
  refine ⟨_, rfl, by simp, ?_, ?_, ?_, ?_, ?_⟩
  · rw [List.isPrefixOf_iff_prefix, String.data_append]
    exact List.prefix_append _ _
  · unfold csvRecordCount
    rw [String.data_append]
    rw [show (csvStringifyRow row).data = csvRowChars row from rfl]
    rw [csvScan_append]
    have hbal : (csvScan c.data false).2 = false := by
      unfold csvBalanced at hb
      simpa using hb
    rw [hbal, csvScan_row]
  · intro g hg
    simp [hg]
  · intro f n
    rfl
  · intro f
    rfl

/-- A drive holding one ledger (with the fixed header) in folder 2025.07. -/
def driveCsv : Drive :=
  ⟨fun _ => false, fun _ _ => none,
   fun f => if f = "2025.07" then some csvHeader else none⟩

/-- Witness for C5: appending one concrete row to the header-only ledger. -/
theorem c5_witness :
    ∃ st', appendCsvRowE envOk driveCsv "2025.07"
        ["2025-07-04T00:00:00.000Z", "2025-07-03", "ACME", "10.00", "", "Cash"]
        = Except.ok st' ∧
      st'.csvs "2025.07" = some (csvHeader ++ csvStringifyRow
        ["2025-07-04T00:00:00.000Z", "2025-07-03", "ACME", "10.00", "", "Cash"]) ∧
      csvHeader.data.isPrefixOf (csvHeader ++ csvStringifyRow
        ["2025-07-04T00:00:00.000Z", "2025-07-03", "ACME", "10.00", "", "Cash"]).data
        = true ∧
      csvRecordCount (csvHeader ++ csvStringifyRow
        ["2025-07-04T00:00:00.000Z", "2025-07-03", "ACME", "10.00", "", "Cash"])
        = csvRecordCount csvHeader + 1 ∧
      (∀ g, g ≠ "2025.07" → st'.csvs g = driveCsv.csvs g) ∧
      (∀ f n, st'.files f n = driveCsv.files f n) ∧
      (∀ f, st'.folders f = driveCsv.folders f) :=
  c5_ledger_append envOk driveCsv "2025.07"
    ["2025-07-04T00:00:00.000Z", "2025-07-03", "ACME", "10.00", "", "Cash"]
    csvHeader (by simp [driveCsv]) (by decide) rfl rfl

/-- A full JSON document, as `JSON.parse` produces one: strings, numbers
(exact rationals — every JavaScript number is a dyadic rational), booleans,
null, arrays and objects, arbitrarily nested. This is the value space of
the round-trip claim; the pipeline itself only ever consumes the flat
scalar objects of `JObj`. -/
inductive JDoc where
  | dstr (s : String)
  | dnum (q : ℚ)
  | dbool (b : Bool)
  | dnull
  | darr (elems : List JDoc)
  | dobj (members : List (String × JDoc))

mutual

/-- Structural size of a document, bounding the parser fuel it needs. -/
def sizeD : JDoc → Nat
  | .darr es => 1 + sizeA es
  | .dobj ms => 1 + sizeM ms
  | _ => 1

/-- Structural size of an array's elements. -/
def sizeA : List JDoc → Nat
  | [] => 0
  | d :: rest => 1 + sizeD d + sizeA rest

/-- Structural size of an object's members. -/
def sizeM : List (String × JDoc) → Nat
  | [] => 0
  | p :: rest => 1 + sizeD p.2 + sizeM rest

end

/-- A JavaScript number is decimal-representable (all doubles are); the
bound matches `decExponent`. -/
def goodNum (q : ℚ) : Bool := (q.num.natAbs * 10 ^ 1099) % q.den = 0

mutual

/-- Every number in the document is decimal-representable. -/
def goodDoc : JDoc → Bool
  | .dnum q => goodNum q
  | .darr es => goodArr es
  | .dobj ms => goodMems ms
  | _ => true

/-- `goodDoc` on an array's elements. -/
def goodArr : List JDoc → Bool
  | [] => true
  | d :: rest => goodDoc d && goodArr rest

/-- `goodDoc` on an object's members. -/
def goodMems : List (String × JDoc) → Bool
  | [] => true
  | p :: rest => goodDoc p.2 && goodMems rest

end

/-- Lower-case hexadecimal digit, as `JSON.stringify` emits in `\u00xx`
escapes. -/
def hexDigitChar (n : Nat) : Char :=
  if n < 10 then Char.ofNat (48 + n) else Char.ofNat (87 + n)

/-- `JSON.stringify` escaping of one string character: quote, backslash
and the shorthand control escapes as two-character sequences, any other
control character as `\u00xx`, everything else unescaped. -/
def escChar (c : Char) : List Char :=
  if c = qm then ['\\', qm]
  else if c = '\\' then ['\\', '\\']
  else if c = Char.ofNat 8 then ['\\', 'b']
  else if c = '\t' then ['\\', 't']
  else if c = '\n' then ['\\', 'n']
  else if c = Char.ofNat 12 then ['\\', 'f']
  else if c = '\r' then ['\\', 'r']
  else if c.toNat < 32 then
    ['\\', 'u', '0', '0', hexDigitChar (c.toNat / 16), hexDigitChar (c.toNat % 16)]
  else [c]

/-- `JSON.stringify` escaping of a whole string body. -/
def escList : List Char → List Char
  | [] => []
  | c :: rest => escChar c ++ escList rest

/-- Value of a hexadecimal digit character. -/
def parseHexDigit (c : Char) : Option Nat :=
  if '0' ≤ c ∧ c ≤ '9' then some (c.toNat - 48)
  else if 'a' ≤ c ∧ c ≤ 'f' then some (c.toNat - 87)
  else if 'A' ≤ c ∧ c ≤ 'F' then some (c.toNat - 55)
  else none

/-- Decode one JSON string escape: the character after the backslash and
the remaining input. (Surrogate-pair `\u` escapes, which Lean's `Char`
cannot carry, are outside the modelled fragment; `JSON.stringify` never
emits them for the characters `Char` does carry.) -/
def unescape1 (e : Char) (r2 : List Char) : Option (Char × List Char) :=
  if e = qm then some (qm, r2)
  else if e = '\\' then some ('\\', r2)
  else if e = '/' then some ('/', r2)
  else if e = 'b' then some (Char.ofNat 8, r2)
  else if e = 't' then some ('\t', r2)
  else if e = 'n' then some ('\n', r2)
  else if e = 'f' then some (Char.ofNat 12, r2)
  else if e = 'r' then some ('\r', r2)
  else if e = 'u' then
    match r2 with
    | h1 :: h2 :: h3 :: h4 :: r3 =>
        match parseHexDigit h1 with
        | none => none
        | some a =>
            match parseHexDigit h2 with
            | none => none
            | some b =>
                match parseHexDigit h3 with
                | none => none
                | some x =>
                    match parseHexDigit h4 with
                    | none => none
                    | some y =>
                        some (Char.ofNat (4096 * a + 256 * b + 16 * x + y), r3)
    | _ => none
  else none

/-- JSON string-body parser (after the opening quote): decodes escapes,
rejects raw control characters, stops at the closing quote. Each step
consumes input, so a fuel of the input length suffices. -/
def parseStrAux : Nat → List Char → Option (List Char × List Char)
  | 0, _ => none
  | fuel + 1, cs =>
      match cs with
      | [] => none
      | c :: rest =>
          if c = qm then some ([], rest)
          else if c = '\\' then
            match rest with
            | [] => none
            | e :: r2 =>
                match unescape1 e r2 with
                | none => none
                | some (d, r3) =>
                    match parseStrAux fuel r3 with
                    | some (out, r4) => some (d :: out, r4)
                    | none => none
          else if c.toNat < 32 then none
          else
            match parseStrAux fuel rest with
            | some (out, r3) => some (c :: out, r3)
            | none => none

/-- JSON string literal parser with escape decoding (`JSON.parse` on
string tokens). -/
def parseStringE (cs : List Char) : Option (String × List Char) :=
  match cs with
  | c :: rest =>
      if c = qm then
        match parseStrAux (rest.length + 1) rest with
        | some (out, r2) => some (⟨out⟩, r2)
        | none => none
      else none
  | [] => none

/-- Exponent digits of a JSON number: scale the signed mantissa. -/
def expDigits (v : ℚ) (eneg : Bool) (ds : List Char) : Option (ℚ × List Char) :=
  if (ds.takeWhile Char.isDigit).isEmpty then none
  else
    some ((if eneg then v / 10 ^ natOfDigits (ds.takeWhile Char.isDigit)
           else v * 10 ^ natOfDigits (ds.takeWhile Char.isDigit)),
          ds.dropWhile Char.isDigit)

/-- Exponent part of a JSON number, after the `e`/`E` marker: optional
sign, then digits. -/
def expPart (v : ℚ) (t : List Char) : Option (ℚ × List Char) :=
  match t with
  | [] => none
  | c :: r =>
      if c = '-' then expDigits v true r
      else if c = '+' then expDigits v false r
      else expDigits v false (c :: r)

/-- Finish a JSON number: sign the mantissa, then the optional exponent
part. -/
def finishNum (neg : Bool) (v : ℚ) (cs : List Char) : Option (ℚ × List Char) :=
  match cs with
  | [] => some ((if neg then -v else v), [])
  | e :: t =>
      if e = 'e' ∨ e = 'E' then expPart (if neg then -v else v) t
      else some ((if neg then -v else v), e :: t)

/-- Optional fraction after the integer part of a JSON number. -/
def parseFrac (neg : Bool) (ip : ℚ) (cs : List Char) : Option (ℚ × List Char) :=
  match cs with
  | [] => finishNum neg ip []
  | c :: t =>
      if c = '.' then
        if (t.takeWhile Char.isDigit).isEmpty then none
        else
          finishNum neg
            (ip + (natOfDigits (t.takeWhile Char.isDigit) : ℚ) /
              (10 : ℚ) ^ (t.takeWhile Char.isDigit).length)
            (t.dropWhile Char.isDigit)
      else finishNum neg ip (c :: t)

/-- Integer part of a JSON number (after the optional sign), then the
fraction and exponent. -/
def parseNumAt (neg : Bool) (cs : List Char) : Option (ℚ × List Char) :=
  if (cs.takeWhile Char.isDigit).isEmpty then none
  else
    parseFrac neg (natOfDigits (cs.takeWhile Char.isDigit) : ℚ)
      (cs.dropWhile Char.isDigit)

/-- JSON number parser (`JSON.parse` on number tokens): optional sign,
integer part, optional fraction, optional exponent. (It is lenient about
leading zeros, which `JSON.parse` rejects; `JSON.stringify` never emits
them.) -/
def parseNumberE (cs : List Char) : Option (ℚ × List Char) :=
  match cs with
  | [] => none
  | c :: r => if c = '-' then parseNumAt true r else parseNumAt false (c :: r)

mutual

/-- `JSON.parse` value parser over the full document grammar, fuel-indexed
so that it is structural (and kernel-reducible); `parseJson` supplies
ample fuel. -/
def parseDocVal : Nat → List Char → Option (JDoc × List Char)
  | 0, _ => none
  | fuel + 1, cs =>
      match cs with
      | [] => none
      | c :: r =>
          if c = qm then
            match parseStringE cs with
            | some (s, r2) => some (.dstr s, r2)
            | none => none
          else if c = '-' || c.isDigit then
            match parseNumberE cs with
            | some (q, r2) => some (.dnum q, r2)
            | none => none
          else if c = 't' then
            match r with
            | 'r' :: 'u' :: 'e' :: r2 => some (.dbool true, r2)
            | _ => none
          else if c = 'f' then
            match r with
            | 'a' :: 'l' :: 's' :: 'e' :: r2 => some (.dbool false, r2)
            | _ => none
          else if c = 'n' then
            match r with
            | 'u' :: 'l' :: 'l' :: r2 => some (.dnull, r2)
            | _ => none
          else if c = '[' then
            match skipWs r with
            | [] => none
            | c2 :: r1 =>
                if c2 = ']' then some (.darr [], r1)
                else
                  match parseDocArr fuel (c2 :: r1) with
                  | some (es, r2) => some (.darr es, r2)
                  | none => none
          else if c = '{' then
            match skipWs r with
            | [] => none
            | c2 :: r1 =>
                if c2 = '}' then some (.dobj [], r1)
                else
                  match parseDocMems fuel (c2 :: r1) with
                  | some (ms, r2) => some (.dobj ms, r2)
                  | none => none
          else none

/-- Elements of a non-empty JSON array, after the opening bracket. -/
def parseDocArr : Nat → List Char → Option (List JDoc × List Char)
  | 0, _ => none
  | fuel + 1, cs =>
      match parseDocVal fuel (skipWs cs) with
      | none => none
      | some (d, r) =>
          match skipWs r with
          | [] => none
          | c :: r2 =>
              if c = ']' then some ([d], r2)
              else if c = ',' then
                match parseDocArr fuel r2 with
                | some (es, r3) => some (d :: es, r3)
                | none => none
              else none

/-- Members of a non-empty JSON object, after the opening brace. -/
def parseDocMems : Nat → List Char → Option (List (String × JDoc) × List Char)
  | 0, _ => none
  | fuel + 1, cs =>
      match parseStringE (skipWs cs) with
      | none => none
      | some (k, r1) =>
          match skipWs r1 with
          | [] => none
          | c :: r2 =>
              if c = ':' then
                match parseDocVal fuel (skipWs r2) with
                | none => none
                | some (v, r3) =>
                    match skipWs r3 with
                    | [] => none
                    | c2 :: r4 =>
                        if c2 = '}' then some ([(k, v)], r4)
                        else if c2 = ',' then
                          match parseDocMems fuel r4 with
                          | some (ms, r5) => some ((k, v) :: ms, r5)
                          | none => none
                        else none
              else none

end

/-- `JSON.parse` on a whole document: a single value, surrounded by
optional whitespace, consuming the entire input. -/
def parseJson (s : String) : Option JDoc :=
  let cs := skipWs s.data
  match parseDocVal (2 * cs.length + 2) cs with
  | some (d, rest) => if (skipWs rest).isEmpty then some d else none
  | none => none

mutual

/-- `JSON.stringify` of a document (compact form, no inserted
whitespace). -/
def strDoc : JDoc → List Char
  | .dstr s => qm :: (escList s.data ++ [qm])
  | .dnum q => (ratToJsString q).data
  | .dbool b => if b then ['t', 'r', 'u', 'e'] else ['f', 'a', 'l', 's', 'e']
  | .dnull => ['n', 'u', 'l', 'l']
  | .darr es => '[' :: (strArr es ++ [']'])
  | .dobj ms => '{' :: (strMems ms ++ ['}'])

/-- Comma-separated serialized array elements. -/
def strArr : List JDoc → List Char
  | [] => []
  | [d] => strDoc d
  | d :: e :: rest => strDoc d ++ ',' :: strArr (e :: rest)

/-- Comma-separated serialized object members. -/
def strMems : List (String × JDoc) → List Char
  | [] => []
  | [p] => qm :: (escList p.1.data ++ qm :: ':' :: strDoc p.2)
  | p :: r :: rest =>
      (qm :: (escList p.1.data ++ qm :: ':' :: strDoc p.2)) ++ ',' :: strMems (r :: rest)

end

/-- `JSON.stringify`. -/
def stringifyJson (d : JDoc) : String := ⟨strDoc d⟩

/-- The ten decimal digit characters. -/
def digitChars : List Char := ['0','1','2','3','4','5','6','7','8','9']

theorem digit_char_facts {c : Char} (h : c ∈ digitChars) :
    c.isDigit = true ∧ isJsSpace c = false ∧ c ≠ '-' ∧ c ≠ qm ∧
    c ≠ ']' ∧ c ≠ '}' ∧ c ≠ '.' := by
  fin_cases h <;> decide

theorem scan_all {p : Char → Bool} :
    ∀ (l : List Char), (∀ c ∈ l, p c = true) →
      l.takeWhile p = l ∧ l.dropWhile p = [] := by
  intro l
  induction l with
  | nil => intro _; simp
  | cons a t ih =>
      intro h
      have ha := h a (by simp)
      have ht := ih (fun c hc => h c (by simp [hc]))
      simp [List.takeWhile, List.dropWhile, ha, ht.1, ht.2]

theorem digits_scan {ds rest : List Char} (hd : ∀ c ∈ ds, c.isDigit = true)
    (hr : rest = [] ∨ ∃ r t, rest = r :: t ∧ r.isDigit = false) :
    (ds ++ rest).takeWhile Char.isDigit = ds ∧
    (ds ++ rest).dropWhile Char.isDigit = rest := by
  rcases hr with h | ⟨r, t, hrt, hrd⟩
  · subst h
    rw [List.append_nil]
    exact scan_all ds hd
  · subst hrt
    exact ⟨takeWhile_append_stop ds r t hd hrd,
           dropWhile_append_stop ds r t hd hrd⟩

theorem fold_digits_init :
    ∀ (ds : List Char) (a : Nat),
      List.foldl (fun n c => n * 10 + (c.toNat - 48)) a ds
        = a * 10 ^ ds.length + natOfDigits ds := by
  intro ds
  induction ds with
  | nil => intro a; simp [natOfDigits]
  | cons c t ih =>
      intro a
      rw [List.foldl_cons, ih]
      have hc : natOfDigits (c :: t)
          = (c.toNat - 48) * 10 ^ t.length + natOfDigits t := by
        have h0 : natOfDigits (c :: t)
            = List.foldl (fun n c => n * 10 + (c.toNat - 48)) (c.toNat - 48) t := by
          show List.foldl (fun n c => n * 10 + (c.toNat - 48)) 0 (c :: t) = _
          rw [List.foldl_cons]
          simp
        rw [h0, ih]
      rw [hc, List.length_cons]
      ring

theorem natOfDigits_append (xs ys : List Char) :
    natOfDigits (xs ++ ys)
      = natOfDigits xs * 10 ^ ys.length + natOfDigits ys := by
  have h1 : natOfDigits (xs ++ ys)
      = List.foldl (fun n c => n * 10 + (c.toNat - 48)) (natOfDigits xs) ys := by
    show List.foldl (fun n c => n * 10 + (c.toNat - 48)) 0 (xs ++ ys) = _
    rw [List.foldl_append]
    rfl
  rw [h1, fold_digits_init]

theorem natOfDigits_replicate_zero :
    ∀ j, natOfDigits (List.replicate j '0') = 0 := by
  intro j
  induction j with
  | zero => rfl
  | succ n ih =>
      show natOfDigits ('0' :: List.replicate n '0') = 0
      have h0 : natOfDigits ('0' :: List.replicate n '0')
          = List.foldl (fun n c => n * 10 + (c.toNat - 48)) 0
              (List.replicate n '0') := by
        show List.foldl (fun n c => n * 10 + (c.toNat - 48)) 0
            ('0' :: List.replicate n '0') = _
        rw [List.foldl_cons]
        rfl
      rw [h0]
      exact ih

theorem natCharsAux_mem :
    ∀ (fuel n : Nat), ∀ c ∈ natCharsAux fuel n, c ∈ digitChars := by
  intro fuel
  induction fuel with
  | zero => intro n c hc; simp [natCharsAux] at hc
  | succ f ih =>
      intro n c hc
      unfold natCharsAux at hc
      by_cases h0 : n = 0
      · rw [if_pos h0] at hc; simp at hc
      · rw [if_neg h0] at hc
        rcases List.mem_append.mp hc with h | h
        · exact ih _ c h
        · have hm : n % 10 < 10 := Nat.mod_lt _ (by norm_num)
          simp at h
          subst h
          set r := n % 10 with hr
          interval_cases r <;> decide

theorem natCharsAux_val :
    ∀ (fuel n : Nat), n ≤ fuel → natOfDigits (natCharsAux fuel n) = n := by
  intro fuel
  induction fuel with
  | zero =>
      intro n hn
      interval_cases n
      rfl
  | succ f ih =>
      intro n hn
      unfold natCharsAux
      by_cases h0 : n = 0
      · rw [if_pos h0]; subst h0; rfl
      · rw [if_neg h0]
        rw [natOfDigits_append]
        have hdiv : n / 10 ≤ f := by
          have := Nat.div_lt_self (Nat.pos_of_ne_zero h0) (by norm_num : (1:Nat) < 10)
          omega
        rw [ih _ hdiv]
        have hm : n % 10 < 10 := Nat.mod_lt _ (by norm_num)
        have hd : natOfDigits [Char.ofNat (48 + n % 10)] = n % 10 := by
          set r := n % 10 with hr
          interval_cases r <;> decide
        simp only [hd, List.length_cons, List.length_nil, pow_one]
        omega

theorem natChars_mem (n : Nat) : ∀ c ∈ natChars n, c ∈ digitChars := by
  intro c hc
  unfold natChars at hc
  by_cases h0 : n = 0
  · rw [if_pos h0] at hc; simp at hc; subst hc; decide
  · rw [if_neg h0] at hc; exact natCharsAux_mem _ _ c hc

theorem natChars_val (n : Nat) : natOfDigits (natChars n) = n := by
  unfold natChars
  by_cases h0 : n = 0
  · rw [if_pos h0, h0]; decide
  · rw [if_neg h0]; exact natCharsAux_val (n + 1) n (by omega)

theorem natChars_ne_nil (n : Nat) : natChars n ≠ [] := by
  unfold natChars
  by_cases h0 : n = 0
  · rw [if_pos h0]; simp
  · rw [if_neg h0]
    simp only [natCharsAux]
    rw [if_neg h0]
    simp

/-- The digit list `ratToJsString` renders: `natChars` of the scaled
mantissa, zero-padded on the left to at least `k + 1` digits. -/
def padDigits (m k : Nat) : List Char :=
  if (natChars m).length ≤ k
  then List.replicate (k + 1 - (natChars m).length) '0' ++ natChars m
  else natChars m

theorem padDigits_mem (m k : Nat) : ∀ c ∈ padDigits m k, c ∈ digitChars := by
  intro c hc
  unfold padDigits at hc
  by_cases h : (natChars m).length ≤ k
  · rw [if_pos h] at hc
    rcases List.mem_append.mp hc with h1 | h1
    · rw [List.eq_of_mem_replicate h1]; decide
    · exact natChars_mem m c h1
  · rw [if_neg h] at hc
    exact natChars_mem m c hc

theorem padDigits_len (m k : Nat) : k + 1 ≤ (padDigits m k).length := by
  unfold padDigits
  have hpos : 1 ≤ (natChars m).length :=
    List.length_pos.mpr (natChars_ne_nil m)
  by_cases h : (natChars m).length ≤ k
  · rw [if_pos h]
    rw [List.length_append, List.length_replicate]
    omega
  · rw [if_neg h]
    omega

theorem padDigits_val (m k : Nat) : natOfDigits (padDigits m k) = m := by
  unfold padDigits
  by_cases h : (natChars m).length ≤ k
  · rw [if_pos h]
    rw [natOfDigits_append, natOfDigits_replicate_zero, natChars_val]
    simp
  · rw [if_neg h]
    exact natChars_val m

theorem ratToJsString_data (q : ℚ) :
    (ratToJsString q).data =
      (if q.num < 0 then ['-'] else []) ++
      (if decExponent q = 0
       then padDigits (q.num.natAbs * 10 ^ decExponent q / q.den) (decExponent q)
       else
         (padDigits (q.num.natAbs * 10 ^ decExponent q / q.den)
             (decExponent q)).take
           ((padDigits (q.num.natAbs * 10 ^ decExponent q / q.den)
               (decExponent q)).length - decExponent q) ++
         '.' :: (padDigits (q.num.natAbs * 10 ^ decExponent q / q.den)
             (decExponent q)).drop
           ((padDigits (q.num.natAbs * 10 ^ decExponent q / q.den)
               (decExponent q)).length - decExponent q)) := by
  by_cases h : decExponent q = 0 <;>
    simp only [ratToJsString, padDigits, h, if_true, if_false, ite_true,
      ite_false]

theorem ratToJsString_head (q : ℚ) :
    ∃ c t, (ratToJsString q).data = c :: t ∧ (c = '-' ∨ c ∈ digitChars) := by
  rw [ratToJsString_data]
  by_cases hneg : q.num < 0
  · rw [if_pos hneg]
    exact ⟨'-', _, rfl, Or.inl rfl⟩
  · rw [if_neg hneg]
    have hlen := padDigits_len (q.num.natAbs * 10 ^ decExponent q / q.den)
      (decExponent q)
    obtain ⟨c, t, hct⟩ : ∃ c t,
        padDigits (q.num.natAbs * 10 ^ decExponent q / q.den) (decExponent q)
          = c :: t := by
      cases hp : padDigits (q.num.natAbs * 10 ^ decExponent q / q.den)
          (decExponent q) with
      | nil => rw [hp] at hlen; simp at hlen
      | cons c t => exact ⟨c, t, rfl⟩
    have hcmem : c ∈ digitChars :=
      padDigits_mem _ _ c (by rw [hct]; simp)
    by_cases hk : decExponent q = 0
    · rw [if_pos hk, hct]
      exact ⟨c, t, rfl, Or.inr hcmem⟩
    · rw [if_neg hk, hct]
      have hlen2 : (c :: t).length - decExponent q ≥ 1 := by
        rw [hct] at hlen
        simp only [List.length_cons] at hlen ⊢
        omega
      obtain ⟨s, hs⟩ : ∃ s, (c :: t).length - decExponent q = s + 1 := by
        obtain ⟨s, hs⟩ := Nat.exists_eq_add_of_le hlen2
        exact ⟨s, by omega⟩
      rw [hs, List.take_succ_cons]
      exact ⟨c, _, rfl, Or.inr hcmem⟩

theorem decExponent_dvd (q : ℚ) (hg : goodNum q = true) :
    q.den ∣ q.num.natAbs * 10 ^ decExponent q := by
  have hgood : (q.num.natAbs * 10 ^ 1099) % q.den = 0 := by
    simpa [goodNum] using hg
  unfold decExponent
  cases hf : (List.range 1100).find?
      (fun k => (q.num.natAbs * 10 ^ k) % q.den = 0) with
  | none =>
      exfalso
      have h9 : (1099 : Nat) ∈ List.range 1100 := List.mem_range.mpr (by norm_num)
      have hne := List.find?_eq_none.mp hf 1099 h9
      simp only [decide_eq_true_eq] at hne
      exact hne hgood
  | some k =>
      rw [Option.getD_some]
      have hk := List.find?_some hf
      simp only [decide_eq_true_eq] at hk
      exact Nat.dvd_of_mod_eq_zero hk

/-- What may legally follow a serialized number so that the maximal-munch
number scan stops exactly at the boundary. -/
def numSafe : List Char → Prop
  | [] => True
  | c :: _ => c.isDigit = false ∧ c ≠ '.' ∧ c ≠ 'e' ∧ c ≠ 'E'

theorem numSafe_scanOr {rest : List Char} (h : numSafe rest) :
    rest = [] ∨ ∃ r t, rest = r :: t ∧ r.isDigit = false := by
  cases rest with
  | nil => exact Or.inl rfl
  | cons r t => exact Or.inr ⟨r, t, rfl, h.1⟩

theorem ne_nil_isEmpty {l : List Char} (h : l ≠ []) : ¬(l.isEmpty = true) := by
  cases l with
  | nil => exact absurd rfl h
  | cons a t => simp

theorem exists_cons_digit {l : List Char} (h : l ≠ [])
    (hm : ∀ c ∈ l, c ∈ digitChars) :
    ∃ c t, l = c :: t ∧ c ∈ digitChars := by
  cases l with
  | nil => exact absurd rfl h
  | cons c t => exact ⟨c, t, rfl, hm c (by simp)⟩

theorem finishNum_safe (neg : Bool) (v : ℚ) (rest : List Char)
    (h : numSafe rest) :
    finishNum neg v rest = some ((if neg then -v else v), rest) := by
  cases rest with
  | nil => rfl
  | cons r t =>
      obtain ⟨_, _, h3, h4⟩ := h
      dsimp only [finishNum]
      rw [if_neg (by rintro (h | h) <;> [exact h3 h; exact h4 h])]

theorem parseNumAt_digits (neg : Bool) (ds rest : List Char)
    (hdig : ∀ c ∈ ds, c.isDigit = true) (hne : ds ≠ [])
    (hrest : numSafe rest) :
    parseNumAt neg (ds ++ rest)
      = finishNum neg ((natOfDigits ds : ℚ)) rest := by
  obtain ⟨htw, hdw⟩ := digits_scan hdig (numSafe_scanOr hrest)
  unfold parseNumAt
  rw [htw, hdw, if_neg (ne_nil_isEmpty hne)]
  cases rest with
  | nil => rfl
  | cons r t =>
      dsimp only [parseFrac]
      rw [if_neg hrest.2.1]

theorem parseNumAt_dot (neg : Bool) (T D rest : List Char)
    (hT : ∀ c ∈ T, c.isDigit = true) (hTne : T ≠ [])
    (hD : ∀ c ∈ D, c.isDigit = true) (hDne : D ≠ [])
    (hrest : numSafe rest) :
    parseNumAt neg ((T ++ '.' :: D) ++ rest)
      = finishNum neg
          ((natOfDigits T : ℚ) + (natOfDigits D : ℚ) / (10 : ℚ) ^ D.length)
          rest := by
  have hassoc : (T ++ '.' :: D) ++ rest = T ++ '.' :: (D ++ rest) := by simp
  rw [hassoc]
  obtain ⟨htw, hdw⟩ :=
    digits_scan hT (Or.inr ⟨'.', D ++ rest, rfl, by decide⟩)
  unfold parseNumAt
  rw [htw, hdw, if_neg (ne_nil_isEmpty hTne)]
  dsimp only [parseFrac]
  rw [if_pos rfl]
  obtain ⟨htw2, hdw2⟩ := digits_scan hD (numSafe_scanOr hrest)
  rw [htw2, hdw2, if_neg (ne_nil_isEmpty hDne)]

theorem parseNumberE_glue (body rest : List Char) (V q' : ℚ)
    (hbody : ∀ neg : Bool,
      parseNumAt neg (body ++ rest) = some ((if neg then -V else V), rest))
    (hhead : ∃ c t, body = c :: t ∧ c ∈ digitChars)
    (hpos : ¬ q'.num < 0 → V = q')
    (hneg : q'.num < 0 → -V = q') :
    parseNumberE (((if q'.num < 0 then ['-'] else []) ++ body) ++ rest)
      = some (q', rest) := by
  obtain ⟨c, t, hct, hcd⟩ := hhead
  by_cases hn : q'.num < 0
  · rw [if_pos hn]
    rw [show (['-'] ++ body) ++ rest = '-' :: (body ++ rest) by simp]
    dsimp only [parseNumberE]
    rw [if_pos rfl, hbody true, if_pos (rfl : (true : Bool) = true), hneg hn]
  · rw [if_neg hn]
    rw [show (([] : List Char) ++ body) ++ rest = c :: (t ++ rest) by
      simp [hct]]
    dsimp only [parseNumberE]
    rw [if_neg (digit_char_facts hcd).2.2.1]
    rw [show c :: (t ++ rest) = body ++ rest by simp [hct], hbody false]
    rw [if_neg (by simp : ¬((false : Bool) = true)), hpos hn]

theorem rtNum (q : ℚ) (hg : goodNum q = true) (rest : List Char)
    (hrest : numSafe rest) :
    parseNumberE ((ratToJsString q).data ++ rest) = some (q, rest) := by
  have hdvd : q.den ∣ q.num.natAbs * 10 ^ decExponent q := decExponent_dvd q hg
  have hmden : (q.num.natAbs * 10 ^ decExponent q / q.den) * q.den
      = q.num.natAbs * 10 ^ decExponent q := Nat.div_mul_cancel hdvd
  set k := decExponent q with hk
  set m := q.num.natAbs * 10 ^ k / q.den with hmdef
  set ds := padDigits m k with hdsdef
  have hmem := padDigits_mem m k
  have hlen : k + 1 ≤ ds.length := padDigits_len m k
  have hval : natOfDigits ds = m := padDigits_val m k
  have hdig : ∀ c ∈ ds, c.isDigit = true :=
    fun c hc => (digit_char_facts (hmem c hc)).1
  have hdsne : ds ≠ [] := by
    intro h; rw [h] at hlen; simp at hlen
  have hdata := ratToJsString_data q
  rw [← hk, ← hmdef, ← hdsdef] at hdata
  have hq10 : ((10 : ℚ)) ^ k ≠ 0 := pow_ne_zero _ (by norm_num)
  have hden0 : ((q.den : ℚ)) ≠ 0 := by
    exact_mod_cast q.den_nz
  have hfrac : (m : ℚ) / (10 : ℚ) ^ k = (q.num.natAbs : ℚ) / (q.den : ℚ) := by
    rw [div_eq_div_iff hq10 hden0]
    exact_mod_cast hmden
  have hqpos : ¬ q.num < 0 → (q.num.natAbs : ℚ) / (q.den : ℚ) = q := by
    intro h
    have h2 : ((q.num.natAbs : ℤ)) = q.num := by omega
    have h3 : ((q.num.natAbs : ℚ)) = ((q.num : ℤ) : ℚ) := by
      rw [← h2]; exact (Int.cast_natCast _).symm
    rw [h3]
    exact Rat.num_div_den q
  have hqneg : q.num < 0 → -((q.num.natAbs : ℚ) / (q.den : ℚ)) = q := by
    intro h
    have h2 : ((q.num.natAbs : ℤ)) = -q.num := by omega
    have h3 : ((q.num.natAbs : ℚ)) = -((q.num : ℤ) : ℚ) := by
      rw [← Int.cast_neg, ← h2]; exact (Int.cast_natCast _).symm
    rw [h3, neg_div, neg_neg]
    exact Rat.num_div_den q
  rw [hdata]
  by_cases hk0 : k = 0
  · rw [if_pos hk0]
    have hV0 : ((natOfDigits ds : ℚ)) = (q.num.natAbs : ℚ) / (q.den : ℚ) := by
      rw [hval, ← hfrac, hk0, pow_zero, div_one]
    refine parseNumberE_glue ds rest ((natOfDigits ds : ℚ)) q ?_ ?_ ?_ ?_
    · intro neg
      rw [parseNumAt_digits neg ds rest hdig hdsne hrest,
        finishNum_safe neg _ rest hrest]
    · exact exists_cons_digit hdsne hmem
    · intro h; rw [hV0]; exact hqpos h
    · intro h; rw [hV0]; exact hqneg h
  · rw [if_neg hk0]
    set T := ds.take (ds.length - k) with hT
    set D := ds.drop (ds.length - k) with hD
    have hsplitTD : T ++ D = ds := List.take_append_drop _ _
    have hDlen : D.length = k := by
      rw [hD, List.length_drop]
      omega
    have hTlen : 1 ≤ T.length := by
      rw [hT, List.length_take]
      omega
    have hTdig : ∀ c ∈ T, c.isDigit = true :=
      fun c hc => hdig c (List.take_subset _ _ hc)
    have hDdig : ∀ c ∈ D, c.isDigit = true :=
      fun c hc => hdig c (List.drop_subset _ _ hc)
    have hTmem : ∀ c ∈ T, c ∈ digitChars :=
      fun c hc => hmem c (List.take_subset _ _ hc)
    have hTne : T ≠ [] := by
      intro h; rw [h] at hTlen; simp at hTlen
    have hDne : D ≠ [] := by
      intro h
      rw [h] at hDlen
      simp at hDlen
      omega
    have hTD : natOfDigits T * 10 ^ k + natOfDigits D = m := by
      have happ := natOfDigits_append T D
      rw [hsplitTD, hDlen, hval] at happ
      exact happ.symm
    have hV : (natOfDigits T : ℚ) + (natOfDigits D : ℚ) / (10 : ℚ) ^ D.length
        = (q.num.natAbs : ℚ) / (q.den : ℚ) := by
      rw [hDlen, ← hfrac, eq_div_iff hq10, add_mul,
        div_mul_cancel₀ _ hq10]
      exact_mod_cast hTD
    obtain ⟨c, t, hct, hcd⟩ := exists_cons_digit hTne hTmem
    refine parseNumberE_glue (T ++ '.' :: D) rest
      ((natOfDigits T : ℚ) + (natOfDigits D : ℚ) / (10 : ℚ) ^ D.length) q
      ?_ ?_ ?_ ?_
    · intro neg
      rw [parseNumAt_dot neg T D rest hTdig hTne hDdig hDne hrest,
        finishNum_safe neg _ rest hrest]
    · exact ⟨c, t ++ '.' :: D, by rw [hct]; simp, hcd⟩
    · intro h; rw [hV]; exact hqpos h
    · intro h; rw [hV]; exact hqneg h

theorem parseHexDigit_hex : ∀ a : Nat, a < 16 →
    parseHexDigit (hexDigitChar a) = some a := by
  intro a ha
  interval_cases a <;> decide

theorem escChar_len (c : Char) : 1 ≤ (escChar c).length := by
  unfold escChar
  repeat' split
  all_goals simp

theorem escList_len : ∀ l : List Char, l.length ≤ (escList l).length := by
  intro l
  induction l with
  | nil => simp [escList]
  | cons c t ih =>
      show (c :: t).length ≤ (escChar c ++ escList t).length
      rw [List.length_append, List.length_cons]
      have := escChar_len c
      omega

theorem parseStrAux_stop (f : Nat) (r : List Char) :
    parseStrAux (f + 1) (qm :: r) = some ([], r) := by
  dsimp only [parseStrAux]
  rw [if_pos rfl]

theorem parseStrAux_backslash (f : Nat) (e : Char) (r2 : List Char) :
    parseStrAux (f + 1) ('\\' :: e :: r2)
      = (match unescape1 e r2 with
         | none => none
         | some (d, r3) =>
             match parseStrAux f r3 with
             | some (out, r4) => some (d :: out, r4)
             | none => none) := by
  dsimp only [parseStrAux]
  rw [if_neg (by decide : ¬(('\\' : Char) = qm)), if_pos rfl]

theorem parseStrAux_plain (f : Nat) (c : Char) (r : List Char)
    (h1 : c ≠ qm) (h2 : c ≠ '\\') (h3 : ¬ c.toNat < 32) :
    parseStrAux (f + 1) (c :: r)
      = (match parseStrAux f r with
         | some (out, r3) => some (c :: out, r3)
         | none => none) := by
  dsimp only [parseStrAux]
  rw [if_neg h1, if_neg h2, if_neg h3]

theorem unescape1_u (c : Char) (h : c.toNat < 32) (R : List Char) :
    unescape1 'u' ('0' :: '0' :: hexDigitChar (c.toNat / 16) ::
        hexDigitChar (c.toNat % 16) :: R) = some (c, R) := by
  have ha : parseHexDigit (hexDigitChar (c.toNat / 16)) = some (c.toNat / 16) :=
    parseHexDigit_hex _ (by omega)
  have hb : parseHexDigit (hexDigitChar (c.toNat % 16)) = some (c.toNat % 16) :=
    parseHexDigit_hex _ (by omega)
  have h0 : parseHexDigit '0' = some 0 := by decide
  dsimp only [unescape1]
  rw [if_neg (by decide), if_neg (by decide), if_neg (by decide),
    if_neg (by decide), if_neg (by decide), if_neg (by decide),
    if_neg (by decide), if_neg (by decide), if_pos rfl]
  rw [h0, ha, hb]
  show some (Char.ofNat (4096 * 0 + 256 * 0 + 16 * (c.toNat / 16)
    + c.toNat % 16), R) = some (c, R)
  rw [show 4096 * 0 + 256 * 0 + 16 * (c.toNat / 16) + c.toNat % 16 = c.toNat
    from by omega, Char.ofNat_toNat]

theorem parseStrAux_round :
    ∀ (s : List Char) (fuel : Nat), s.length ≤ fuel → ∀ rest : List Char,
      parseStrAux (fuel + 1) (escList s ++ qm :: rest) = some (s, rest) := by
  intro s
  induction s with
  | nil =>
      intro fuel _ rest
      show parseStrAux (fuel + 1) (qm :: rest) = some ([], rest)
      exact parseStrAux_stop fuel rest
  | cons c s' ih =>
      intro fuel hf rest
      obtain ⟨f, rfl⟩ : ∃ f, fuel = f + 1 := by
        cases fuel with
        | zero => simp at hf
        | succ f => exact ⟨f, rfl⟩
      have hf' : s'.length ≤ f := by
        simp only [List.length_cons] at hf
        omega
      have hR := ih f hf' rest
      by_cases h1 : c = qm
      · subst h1
        rw [show escList (qm :: s') ++ qm :: rest
            = '\\' :: qm :: (escList s' ++ qm :: rest) from rfl]
        rw [parseStrAux_backslash,
          show unescape1 qm (escList s' ++ qm :: rest)
            = some (qm, escList s' ++ qm :: rest) from rfl]; dsimp only []; rw [hR]
      · by_cases h2 : c = '\\'
        · subst h2
          rw [show escList ('\\' :: s') ++ qm :: rest
              = '\\' :: '\\' :: (escList s' ++ qm :: rest) from rfl]
          rw [parseStrAux_backslash,
            show unescape1 '\\' (escList s' ++ qm :: rest)
              = some ('\\', escList s' ++ qm :: rest) from rfl]; dsimp only []; rw [hR]
        · by_cases h3 : c = Char.ofNat 8
          · subst h3
            rw [show escList (Char.ofNat 8 :: s') ++ qm :: rest
                = '\\' :: 'b' :: (escList s' ++ qm :: rest) from rfl]
            rw [parseStrAux_backslash,
              show unescape1 'b' (escList s' ++ qm :: rest)
                = some (Char.ofNat 8, escList s' ++ qm :: rest) from rfl]; dsimp only []; rw [hR]
          · by_cases h4 : c = '\t'
            · subst h4
              rw [show escList ('\t' :: s') ++ qm :: rest
                  = '\\' :: 't' :: (escList s' ++ qm :: rest) from rfl]
              rw [parseStrAux_backslash,
                show unescape1 't' (escList s' ++ qm :: rest)
                  = some ('\t', escList s' ++ qm :: rest) from rfl]; dsimp only []; rw [hR]
            · by_cases h5 : c = '\n'
              · subst h5
                rw [show escList ('\n' :: s') ++ qm :: rest
                    = '\\' :: 'n' :: (escList s' ++ qm :: rest) from rfl]
                rw [parseStrAux_backslash,
                  show unescape1 'n' (escList s' ++ qm :: rest)
                    = some ('\n', escList s' ++ qm :: rest) from rfl]; dsimp only []; rw [hR]
              · by_cases h6 : c = Char.ofNat 12
                · subst h6
                  rw [show escList (Char.ofNat 12 :: s') ++ qm :: rest
                      = '\\' :: 'f' :: (escList s' ++ qm :: rest) from rfl]
                  rw [parseStrAux_backslash,
                    show unescape1 'f' (escList s' ++ qm :: rest)
                      = some (Char.ofNat 12, escList s' ++ qm :: rest)
                      from rfl]; dsimp only []; rw [hR]
                · by_cases h7 : c = '\r'
                  · subst h7
                    rw [show escList ('\r' :: s') ++ qm :: rest
                        = '\\' :: 'r' :: (escList s' ++ qm :: rest) from rfl]
                    rw [parseStrAux_backslash,
                      show unescape1 'r' (escList s' ++ qm :: rest)
                        = some ('\r', escList s' ++ qm :: rest) from rfl]; dsimp only []; rw [hR]
                  · by_cases h8 : c.toNat < 32
                    · have hesc : escChar c = ['\\', 'u', '0', '0',
                          hexDigitChar (c.toNat / 16),
                          hexDigitChar (c.toNat % 16)] := by
                        unfold escChar
                        rw [if_neg h1, if_neg h2, if_neg h3, if_neg h4,
                          if_neg h5, if_neg h6, if_neg h7, if_pos h8]
                      rw [show escList (c :: s') ++ qm :: rest
                          = (escChar c ++ escList s') ++ qm :: rest from rfl,
                        hesc]
                      rw [show (['\\', 'u', '0', '0',
                            hexDigitChar (c.toNat / 16),
                            hexDigitChar (c.toNat % 16)] ++ escList s')
                            ++ qm :: rest
                          = '\\' :: 'u' :: '0' :: '0' ::
                            hexDigitChar (c.toNat / 16) ::
                            hexDigitChar (c.toNat % 16) ::
                            (escList s' ++ qm :: rest) from by simp]
                      rw [parseStrAux_backslash, unescape1_u c h8]; dsimp only []; rw [hR]
                    · have hesc : escChar c = [c] := by
                        unfold escChar
                        rw [if_neg h1, if_neg h2, if_neg h3, if_neg h4,
                          if_neg h5, if_neg h6, if_neg h7, if_neg h8]
                      rw [show escList (c :: s') ++ qm :: rest
                          = (escChar c ++ escList s') ++ qm :: rest from rfl,
                        hesc]
                      rw [show ([c] ++ escList s') ++ qm :: rest
                          = c :: (escList s' ++ qm :: rest) from by simp]
                      rw [parseStrAux_plain (f + 1) c _ h1 h2 h8, hR]

theorem rtStr (s : String) (rest : List Char) :
    parseStringE (qm :: (escList s.data ++ qm :: rest)) = some (s, rest) := by
  dsimp only [parseStringE]
  rw [if_pos rfl]
  have hf : s.data.length ≤ (escList s.data ++ qm :: rest).length := by
    rw [List.length_append, List.length_cons]
    have := escList_len s.data
    omega
  rw [parseStrAux_round s.data _ hf rest]

theorem strDoc_head : ∀ d : JDoc, ∃ c t, strDoc d = c :: t ∧
    isJsSpace c = false ∧ c ≠ ']' ∧ c ≠ '}' := by
  intro d
  cases d with
  | dstr s => exact ⟨qm, _, rfl, by decide, by decide, by decide⟩
  | dnum q =>
      obtain ⟨c, t, hct, hc⟩ := ratToJsString_head q
      refine ⟨c, t, hct, ?_, ?_, ?_⟩
      · rcases hc with h | h
        · subst h; decide
        · exact (digit_char_facts h).2.1
      · rcases hc with h | h
        · subst h; decide
        · exact (digit_char_facts h).2.2.2.2.1
      · rcases hc with h | h
        · subst h; decide
        · exact (digit_char_facts h).2.2.2.2.2.1
  | dbool b =>
      cases b with
      | false => exact ⟨'f', _, rfl, by decide, by decide, by decide⟩
      | true => exact ⟨'t', _, rfl, by decide, by decide, by decide⟩
  | dnull => exact ⟨'n', _, rfl, by decide, by decide, by decide⟩
  | darr es => exact ⟨'[', _, rfl, by decide, by decide, by decide⟩
  | dobj ms => exact ⟨'{', _, rfl, by decide, by decide, by decide⟩

theorem ratToJsString_ne (q : ℚ) : 1 ≤ (ratToJsString q).data.length := by
  obtain ⟨c, t, hct, _⟩ := ratToJsString_head q
  rw [hct]
  simp

mutual

theorem sizeD_le : (d : JDoc) → sizeD d ≤ (strDoc d).length
  | .dstr s => by
      show 1 ≤ (qm :: (escList s.data ++ [qm])).length
      simp
  | .dnum q => by
      show 1 ≤ (ratToJsString q).data.length
      exact ratToJsString_ne q
  | .dbool b => by
      cases b with
      | false => show 1 ≤ (['f','a','l','s','e'] : List Char).length; simp
      | true => show 1 ≤ (['t','r','u','e'] : List Char).length; simp
  | .dnull => by
      show 1 ≤ (['n','u','l','l'] : List Char).length
      simp
  | .darr es => by
      show 1 + sizeA es ≤ ('[' :: (strArr es ++ [']'])).length
      have := sizeA_le es
      simp only [List.length_cons, List.length_append, List.length_singleton]
      omega
  | .dobj ms => by
      show 1 + sizeM ms ≤ ('{' :: (strMems ms ++ ['}'])).length
      have := sizeM_le ms
      simp only [List.length_cons, List.length_append, List.length_singleton]
      omega

theorem sizeA_le : (es : List JDoc) → sizeA es ≤ (strArr es).length + 1
  | [] => by
      show 0 ≤ ([] : List Char).length + 1
      simp
  | [d] => by
      show 1 + sizeD d + 0 ≤ (strDoc d).length + 1
      have := sizeD_le d
      omega
  | d :: e :: rest => by
      show 1 + sizeD d + sizeA (e :: rest)
        ≤ (strDoc d ++ ',' :: strArr (e :: rest)).length + 1
      have h1 := sizeD_le d
      have h2 := sizeA_le (e :: rest)
      simp only [List.length_append, List.length_cons]
      omega

theorem sizeM_le : (ms : List (String × JDoc)) → sizeM ms ≤ (strMems ms).length + 1
  | [] => by
      show 0 ≤ ([] : List Char).length + 1
      simp
  | [p] => by
      show 1 + sizeD p.2 + 0
        ≤ (qm :: (escList p.1.data ++ qm :: ':' :: strDoc p.2)).length + 1
      have := sizeD_le p.2
      simp only [List.length_cons, List.length_append]
      omega
  | p :: r :: rest => by
      show 1 + sizeD p.2 + sizeM (r :: rest)
        ≤ ((qm :: (escList p.1.data ++ qm :: ':' :: strDoc p.2))
            ++ ',' :: strMems (r :: rest)).length + 1
      have h1 := sizeD_le p.2
      have h2 := sizeM_le (r :: rest)
      simp only [List.length_append, List.length_cons]
      omega

end

theorem skipWs_rbracket (l : List Char) : skipWs (']' :: l) = ']' :: l :=
  skipWs_cons_nonws l (by decide)

theorem numSafe_nil : numSafe [] := trivial

theorem numSafe_rbracket (l : List Char) : numSafe (']' :: l) :=
  ⟨by decide, by decide, by decide, by decide⟩

theorem numSafe_rbrace (l : List Char) : numSafe ('}' :: l) :=
  ⟨by decide, by decide, by decide, by decide⟩

theorem numSafe_comma (l : List Char) : numSafe (',' :: l) :=
  ⟨by decide, by decide, by decide, by decide⟩

theorem goodArr_cons {d : JDoc} {rest : List JDoc}
    (h : goodArr (d :: rest) = true) :
    goodDoc d = true ∧ goodArr rest = true := by
  have h' : (goodDoc d && goodArr rest) = true := h
  simpa using h'

theorem goodMems_cons {p : String × JDoc} {rest : List (String × JDoc)}
    (h : goodMems (p :: rest) = true) :
    goodDoc p.2 = true ∧ goodMems rest = true := by
  have h' : (goodDoc p.2 && goodMems rest) = true := h
  simpa using h'

theorem sizeD_pos : ∀ d : JDoc, 1 ≤ sizeD d
  | .dstr _ => le_refl 1
  | .dnum _ => le_refl 1
  | .dbool _ => le_refl 1
  | .dnull => le_refl 1
  | .darr es => by show 1 ≤ 1 + sizeA es; omega
  | .dobj ms => by show 1 ≤ 1 + sizeM ms; omega

mutual

theorem rtV : (d : JDoc) → ∀ (fuel : Nat) (rest : List Char),
    sizeD d ≤ fuel → goodDoc d = true → numSafe rest →
    parseDocVal fuel (strDoc d ++ rest) = some (d, rest)
  | .dstr s => by
      intro fuel rest hfuel _ _
      have h1 : 1 ≤ fuel := le_trans (sizeD_pos (.dstr s)) hfuel
      obtain ⟨f, rfl⟩ : ∃ f, fuel = f + 1 := ⟨fuel - 1, by omega⟩
      rw [show strDoc (.dstr s) ++ rest = qm :: (escList s.data ++ qm :: rest)
        from by show (qm :: (escList s.data ++ [qm])) ++ rest = _; simp]
      dsimp only [parseDocVal]
      rw [if_pos rfl, rtStr s rest]
  | .dnum q => by
      intro fuel rest hfuel hgood hsafe
      have hg : goodNum q = true := hgood
      have h1 : 1 ≤ fuel := le_trans (sizeD_pos (.dnum q)) hfuel
      obtain ⟨f, rfl⟩ : ∃ f, fuel = f + 1 := ⟨fuel - 1, by omega⟩
      obtain ⟨c, t, hct, hcd⟩ := ratToJsString_head q
      rw [show strDoc (.dnum q) ++ rest = c :: (t ++ rest)
        from by show (ratToJsString q).data ++ rest = _
                rw [hct, List.cons_append]]
      dsimp only [parseDocVal]
      have hcq : ¬ c = qm := by
        rcases hcd with h | h
        · subst h; decide
        · exact (digit_char_facts h).2.2.2.1
      rw [if_neg hcq]
      have hcb : (decide (c = '-') || c.isDigit) = true := by
        rcases hcd with h | h
        · subst h; decide
        · rw [(digit_char_facts h).1, Bool.or_true]
      rw [if_pos hcb]
      rw [show c :: (t ++ rest) = (ratToJsString q).data ++ rest
        from by rw [hct, List.cons_append]]
      rw [rtNum q hg rest hsafe]
  | .dbool b => by
      intro fuel rest hfuel _ _
      have h1 : 1 ≤ fuel := le_trans (sizeD_pos (.dbool b)) hfuel
      obtain ⟨f, rfl⟩ : ∃ f, fuel = f + 1 := ⟨fuel - 1, by omega⟩
      cases b with
      | true =>
          rw [show strDoc (.dbool true) ++ rest
            = 't' :: 'r' :: 'u' :: 'e' :: rest from rfl]
          dsimp only [parseDocVal]
          rw [if_neg (by decide : ¬('t' : Char) = qm),
            if_neg (by decide : ¬((decide (('t' : Char) = '-')
              || Char.isDigit 't') = true)),
            if_pos (rfl : ('t' : Char) = 't')]
          rfl
      | false =>
          rw [show strDoc (.dbool false) ++ rest
            = 'f' :: 'a' :: 'l' :: 's' :: 'e' :: rest from rfl]
          dsimp only [parseDocVal]
          rw [if_neg (by decide : ¬('f' : Char) = qm),
            if_neg (by decide : ¬((decide (('f' : Char) = '-')
              || Char.isDigit 'f') = true)),
            if_neg (by decide : ¬('f' : Char) = 't'),
            if_pos (rfl : ('f' : Char) = 'f')]
          rfl
  | .dnull => by
      intro fuel rest hfuel _ _
      have h1 : 1 ≤ fuel := le_trans (sizeD_pos .dnull) hfuel
      obtain ⟨f, rfl⟩ : ∃ f, fuel = f + 1 := ⟨fuel - 1, by omega⟩
      rw [show strDoc .dnull ++ rest = 'n' :: 'u' :: 'l' :: 'l' :: rest
        from rfl]
      dsimp only [parseDocVal]
      rw [if_neg (by decide : ¬('n' : Char) = qm),
        if_neg (by decide : ¬((decide (('n' : Char) = '-')
          || Char.isDigit 'n') = true)),
        if_neg (by decide : ¬('n' : Char) = 't'),
        if_neg (by decide : ¬('n' : Char) = 'f'),
        if_pos (rfl : ('n' : Char) = 'n')]
      rfl
  | .darr es => by
      intro fuel rest hfuel hgood _
      have hsz : 1 + sizeA es ≤ fuel := hfuel
      have hga : goodArr es = true := hgood
      obtain ⟨f, rfl⟩ : ∃ f, fuel = f + 1 := ⟨fuel - 1, by omega⟩
      have hA : sizeA es ≤ f := by omega
      rw [show strDoc (.darr es) ++ rest = '[' :: (strArr es ++ ']' :: rest)
        from by show ('[' :: (strArr es ++ [']'])) ++ rest = _; simp]
      dsimp only [parseDocVal]
      rw [if_neg (by decide : ¬('[' : Char) = qm),
        if_neg (by decide : ¬((decide (('[' : Char) = '-')
          || Char.isDigit '[') = true)),
        if_neg (by decide : ¬('[' : Char) = 't'),
        if_neg (by decide : ¬('[' : Char) = 'f'),
        if_neg (by decide : ¬('[' : Char) = 'n'),
        if_pos (rfl : ('[' : Char) = '[')]
      cases es with
      | nil =>
          rw [show strArr [] ++ ']' :: rest = ']' :: rest from rfl,
            skipWs_rbracket]
          dsimp only []
          rw [if_pos rfl]
      | cons e es' =>
          obtain ⟨c, t, hct, hcw, hcrb, _⟩ := strDoc_head e
          obtain ⟨u, hu⟩ : ∃ u, strArr (e :: es') = c :: u := by
            cases es' with
            | nil => exact ⟨t, by show strDoc e = c :: t; exact hct⟩
            | cons e2 es2 =>
                exact ⟨t ++ ',' :: strArr (e2 :: es2), by
                  show strDoc e ++ ',' :: strArr (e2 :: es2) = _
                  rw [hct, List.cons_append]⟩
          rw [hu, show (c :: u) ++ ']' :: rest = c :: (u ++ ']' :: rest)
            from rfl, skipWs_cons_nonws _ hcw]
          dsimp only []
          rw [if_neg hcrb]
          rw [show c :: (u ++ ']' :: rest) = strArr (e :: es') ++ ']' :: rest
            from by rw [hu, List.cons_append]]
          rw [rtA (e :: es') f rest hA hga (by simp)]
  | .dobj ms => by
      intro fuel rest hfuel hgood _
      have hsz : 1 + sizeM ms ≤ fuel := hfuel
      have hgm : goodMems ms = true := hgood
      obtain ⟨f, rfl⟩ : ∃ f, fuel = f + 1 := ⟨fuel - 1, by omega⟩
      have hM : sizeM ms ≤ f := by omega
      rw [show strDoc (.dobj ms) ++ rest = '{' :: (strMems ms ++ '}' :: rest)
        from by show ('{' :: (strMems ms ++ ['}'])) ++ rest = _; simp]
      dsimp only [parseDocVal]
      rw [if_neg (by decide : ¬('{' : Char) = qm),
        if_neg (by decide : ¬((decide (('{' : Char) = '-')
          || Char.isDigit '{') = true)),
        if_neg (by decide : ¬('{' : Char) = 't'),
        if_neg (by decide : ¬('{' : Char) = 'f'),
        if_neg (by decide : ¬('{' : Char) = 'n'),
        if_neg (by decide : ¬('{' : Char) = '['),
        if_pos (rfl : ('{' : Char) = '{')]
      cases ms with
      | nil =>
          rw [show strMems [] ++ '}' :: rest = '}' :: rest from rfl,
            skipWs_rbrace]
          dsimp only []
          rw [if_pos rfl]
      | cons p ms' =>
          obtain ⟨u, hu⟩ : ∃ u, strMems (p :: ms') = qm :: u := by
            cases ms' with
            | nil =>
                exact ⟨escList p.1.data ++ qm :: ':' :: strDoc p.2, rfl⟩
            | cons p2 ms2 =>
                exact ⟨(escList p.1.data ++ qm :: ':' :: strDoc p.2)
                  ++ ',' :: strMems (p2 :: ms2), rfl⟩
          rw [hu, show (qm :: u) ++ '}' :: rest = qm :: (u ++ '}' :: rest)
            from rfl, skipWs_cons_nonws _ ws_qm]
          dsimp only []
          rw [if_neg (by decide : ¬(qm = '}'))]
          rw [show qm :: (u ++ '}' :: rest) = strMems (p :: ms') ++ '}' :: rest
            from by rw [hu, List.cons_append]]
          rw [rtM (p :: ms') f rest hM hgm (by simp)]

theorem rtA : (es : List JDoc) → ∀ (fuel : Nat) (rest : List Char),
    sizeA es ≤ fuel → goodArr es = true → es ≠ [] →
    parseDocArr fuel (strArr es ++ ']' :: rest) = some (es, rest)
  | [] => by
      intro fuel rest _ _ hne
      exact absurd rfl hne
  | [d] => by
      intro fuel rest hfuel hgood _
      have hsz : 1 + sizeD d + sizeA [] ≤ fuel := hfuel
      obtain ⟨f, rfl⟩ : ∃ f, fuel = f + 1 := ⟨fuel - 1, by omega⟩
      have hD : sizeD d ≤ f := by
        have h0 : sizeA ([] : List JDoc) = 0 := rfl
        omega
      have hgd : goodDoc d = true := (goodArr_cons hgood).1
      dsimp only [parseDocArr]
      obtain ⟨c, t, hct, hcw, _, _⟩ := strDoc_head d
      rw [show strArr [d] ++ ']' :: rest = c :: (t ++ ']' :: rest)
        from by show strDoc d ++ ']' :: rest = _
                rw [hct, List.cons_append]]
      rw [skipWs_cons_nonws _ hcw]
      rw [show c :: (t ++ ']' :: rest) = strDoc d ++ ']' :: rest
        from by rw [hct, List.cons_append]]
      rw [rtV d f (']' :: rest) hD hgd (numSafe_rbracket rest)]
      dsimp only []
      rw [skipWs_rbracket]
      dsimp only []
      rw [if_pos rfl]
  | d :: e :: rest' => by
      intro fuel rest hfuel hgood _
      have hsz : 1 + sizeD d + sizeA (e :: rest') ≤ fuel := hfuel
      obtain ⟨f, rfl⟩ : ∃ f, fuel = f + 1 := ⟨fuel - 1, by omega⟩
      have hD : sizeD d ≤ f := by omega
      have hA : sizeA (e :: rest') ≤ f := by omega
      obtain ⟨hgd, hga⟩ := goodArr_cons hgood
      dsimp only [parseDocArr]
      obtain ⟨c, t, hct, hcw, _, _⟩ := strDoc_head d
      rw [show strArr (d :: e :: rest') ++ ']' :: rest
          = c :: (t ++ ',' :: (strArr (e :: rest') ++ ']' :: rest))
        from by
          show (strDoc d ++ ',' :: strArr (e :: rest')) ++ ']' :: rest = _
          rw [hct]; simp]
      rw [skipWs_cons_nonws _ hcw]
      rw [show c :: (t ++ ',' :: (strArr (e :: rest') ++ ']' :: rest))
          = strDoc d ++ ',' :: (strArr (e :: rest') ++ ']' :: rest)
        from by rw [hct, List.cons_append]]
      rw [rtV d f (',' :: (strArr (e :: rest') ++ ']' :: rest)) hD hgd
        (numSafe_comma _)]
      dsimp only []
      rw [skipWs_comma]
      dsimp only []
      rw [if_neg (by decide : ¬(',' : Char) = ']'),
        if_pos (rfl : (',' : Char) = ',')]
      rw [rtA (e :: rest') f rest hA hga (by simp)]

theorem rtM : (ms : List (String × JDoc)) → ∀ (fuel : Nat) (rest : List Char),
    sizeM ms ≤ fuel → goodMems ms = true → ms ≠ [] →
    parseDocMems fuel (strMems ms ++ '}' :: rest) = some (ms, rest)
  | [] => by
      intro fuel rest _ _ hne
      exact absurd rfl hne
  | [p] => by
      intro fuel rest hfuel hgood _
      have hsz : 1 + sizeD p.2 + sizeM [] ≤ fuel := hfuel
      obtain ⟨f, rfl⟩ : ∃ f, fuel = f + 1 := ⟨fuel - 1, by omega⟩
      have hD : sizeD p.2 ≤ f := by
        have h0 : sizeM ([] : List (String × JDoc)) = 0 := rfl
        omega
      have hgd : goodDoc p.2 = true := (goodMems_cons hgood).1
      dsimp only [parseDocMems]
      rw [show strMems [p] ++ '}' :: rest
          = qm :: (escList p.1.data ++ qm :: (':' :: (strDoc p.2 ++ '}' :: rest)))
        from by
          show (qm :: (escList p.1.data ++ qm :: ':' :: strDoc p.2))
            ++ '}' :: rest = _
          simp]
      rw [skipWs_qm, rtStr p.1 (':' :: (strDoc p.2 ++ '}' :: rest))]
      dsimp only []
      rw [skipWs_colon]
      dsimp only []
      rw [if_pos (rfl : (':' : Char) = ':')]
      obtain ⟨c, t, hct, hcw, _, _⟩ := strDoc_head p.2
      rw [show strDoc p.2 ++ '}' :: rest = c :: (t ++ '}' :: rest)
        from by rw [hct, List.cons_append]]
      rw [skipWs_cons_nonws _ hcw]
      rw [show c :: (t ++ '}' :: rest) = strDoc p.2 ++ '}' :: rest
        from by rw [hct, List.cons_append]]
      rw [rtV p.2 f ('}' :: rest) hD hgd (numSafe_rbrace rest)]
      dsimp only []
      rw [skipWs_rbrace]
      dsimp only []
      rw [if_pos rfl]
  | p :: r :: ms' => by
      intro fuel rest hfuel hgood _
      have hsz : 1 + sizeD p.2 + sizeM (r :: ms') ≤ fuel := hfuel
      obtain ⟨f, rfl⟩ : ∃ f, fuel = f + 1 := ⟨fuel - 1, by omega⟩
      have hD : sizeD p.2 ≤ f := by omega
      have hM : sizeM (r :: ms') ≤ f := by omega
      obtain ⟨hgd, hgm⟩ := goodMems_cons hgood
      dsimp only [parseDocMems]
      rw [show strMems (p :: r :: ms') ++ '}' :: rest
          = qm :: (escList p.1.data ++ qm ::
            (':' :: (strDoc p.2 ++ ',' :: (strMems (r :: ms') ++ '}' :: rest))))
        from by
          show ((qm :: (escList p.1.data ++ qm :: ':' :: strDoc p.2))
            ++ ',' :: strMems (r :: ms')) ++ '}' :: rest = _
          simp]
      rw [skipWs_qm,
        rtStr p.1 (':' :: (strDoc p.2 ++ ',' :: (strMems (r :: ms') ++ '}' :: rest)))]
      dsimp only []
      rw [skipWs_colon]
      dsimp only []
      rw [if_pos (rfl : (':' : Char) = ':')]
      obtain ⟨c, t, hct, hcw, _, _⟩ := strDoc_head p.2
      rw [show strDoc p.2 ++ ',' :: (strMems (r :: ms') ++ '}' :: rest)
          = c :: (t ++ ',' :: (strMems (r :: ms') ++ '}' :: rest))
        from by rw [hct, List.cons_append]]
      rw [skipWs_cons_nonws _ hcw]
      rw [show c :: (t ++ ',' :: (strMems (r :: ms') ++ '}' :: rest))
          = strDoc p.2 ++ ',' :: (strMems (r :: ms') ++ '}' :: rest)
        from by rw [hct, List.cons_append]]
      rw [rtV p.2 f (',' :: (strMems (r :: ms') ++ '}' :: rest)) hD hgd
        (numSafe_comma _)]
      dsimp only []
      rw [skipWs_comma]
      dsimp only []
      rw [if_neg (by decide : ¬(',' : Char) = '}'),
        if_pos (rfl : (',' : Char) = ',')]
      rw [rtM (r :: ms') f rest hM hgm (by simp)]

end

theorem parseJson_stringify (d : JDoc) (hg : goodDoc d = true) :
    parseJson (stringifyJson d) = some d := by
  obtain ⟨c, t, hct, hcw, _, _⟩ := strDoc_head d
  unfold parseJson stringifyJson
  dsimp only []
  have hskip : skipWs (strDoc d) = strDoc d := by
    rw [hct]
    exact skipWs_cons_nonws t hcw
  rw [hskip]
  have hre : parseDocVal (2 * (strDoc d).length + 2) (strDoc d)
      = some (d, []) := by
    have h2 := rtV d (2 * (strDoc d).length + 2) []
      (by have := sizeD_le d; omega) hg numSafe_nil
    rwa [List.append_nil] at h2
  rw [hre]
  rfl

/-- The opening fence the AI may wrap its JSON in. -/
def fenceOpen : List Char := [btick, btick, btick, 'j', 's', 'o', 'n', '\n']

/-- The closing fence. -/
def fenceClose : List Char := ['\n', btick, btick, btick]

theorem stripFence_id {S : String} {mid : List Char}
    (hS : S.data = '{' :: mid ++ ['}'])
    (hzw : ∀ c ∈ S.data, isZeroWidth c = false)
    (hnt : splitOnTriple S.data = none) :
    stripFence S = S := by
  unfold stripFence
  dsimp only []
  rw [filter_nonzw hzw]
  have hfi : fenceInner S.data = none := by
    unfold fenceInner
    rw [hnt]
  rw [hfi]
  dsimp only []
  rw [hS, jsTrimList_wrap mid (by decide) (by decide), ← hS]

theorem stripFence_fenced_id {S : String} {mid : List Char}
    (hS : S.data = '{' :: mid ++ ['}'])
    (hzw : ∀ c ∈ S.data, isZeroWidth c = false)
    (hnt : splitOnTriple S.data = none) :
    stripFence ⟨fenceOpen ++ (S.data ++ fenceClose)⟩ = S := by
  have hzw2 : ∀ c ∈ fenceOpen ++ (S.data ++ fenceClose),
      isZeroWidth c = false := by
    intro c hc
    rcases List.mem_append.mp hc with h1 | h2
    · fin_cases h1 <;> decide
    · rcases List.mem_append.mp h2 with h3 | h4
      · exact hzw c h3
      · fin_cases h4 <;> decide
  unfold stripFence
  dsimp only []
  rw [filter_nonzw hzw2]
  have hfi : fenceInner (fenceOpen ++ (S.data ++ fenceClose))
      = some (S.data ++ ['\n']) := by
    unfold fenceInner
    rw [show fenceOpen ++ (S.data ++ fenceClose)
        = btick :: btick :: btick ::
          ('j' :: 's' :: 'o' :: 'n' :: '\n' :: (S.data ++ fenceClose))
      from rfl]
    rw [st_triple_head]
    dsimp only []
    rw [tag_json, List.dropWhile_cons,
      if_pos (by decide : isJsSpace '\n' = true)]
    rw [show S.data ++ fenceClose = '{' :: (mid ++ ['}'] ++ fenceClose)
      from by rw [hS]; simp]
    rw [dropWhile_nonws_head _ (by decide : isJsSpace '{' = false)]
    rw [show '{' :: (mid ++ ['}'] ++ fenceClose)
        = S.data ++ '\n' :: btick :: btick :: btick :: ([] : List Char)
      from by rw [hS]; simp [fenceClose]]
    rw [st_append_end (by decide : ('\n' : Char) ≠ btick) S.data [] hnt]
  rw [hfi]
  dsimp only []
  rw [hS, show ('{' :: mid ++ ['}']) ++ ['\n']
      = ('{' :: mid ++ ['}']) ++ ['\n'] from rfl,
    jsTrimList_wrap_nl mid (by decide) (by decide), ← hS]

/-- A JSON object whose single string value is one zero-width space
(U+200B): `stripFence` deletes the character before parsing, so the round
trip returns a different object. -/
def zwDoc : JDoc := JDoc.dobj [("a", JDoc.dstr ⟨[Char.ofNat 0x200b]⟩)]

/-- C7 (counterexample): the round trip fails as universally stated. For
the object `{"a":"​"}` — one zero-width space as the value —
`stripFence` deletes the zero-width character globally before matching, so
both the fenced and the unfenced round trip return `{"a":""}`, not the
original object. -/
theorem c7_roundtrip_counterexample :
    ¬ (parseJson (stripFence ⟨fenceOpen ++ ((stringifyJson zwDoc).data
          ++ fenceClose)⟩) = some zwDoc
       ∧ parseJson (stripFence (stringifyJson zwDoc)) = some zwDoc) := by
  rintro ⟨-, h⟩
  have he : parseJson (stripFence (stringifyJson zwDoc))
      = some (JDoc.dobj [("a", JDoc.dstr "")]) := rfl
  rw [he] at h
  injection h with h1
  injection h1 with h2
  injection h2 with h3 h4
  injection h3 with h5 h6
  injection h6 with h7
  have h8 := congrArg String.data h7
  exact absurd h8 (by decide)

/-- C7 (amended): for every JSON object — nested objects, arrays, strings
needing escapes, booleans, nulls and decimal-representable numbers (every
JavaScript number the modelled decimal notation covers) — whose
serialization contains no zero-width character and no triple backtick,
parsing the fence-stripped `json`-fenced wrap of its serialization yields
the object again, and parsing `stripFence` of the bare serialization does
too. -/
theorem c7_roundtrip_amended (o : List (String × JDoc))
    (hnum : goodMems o = true)
    (hzw : ∀ c ∈ (stringifyJson (JDoc.dobj o)).data, isZeroWidth c = false)
    (hnt : splitOnTriple (stringifyJson (JDoc.dobj o)).data = none) :
    parseJson (stripFence ⟨fenceOpen ++ ((stringifyJson (JDoc.dobj o)).data
        ++ fenceClose)⟩) = some (JDoc.dobj o)
    ∧ parseJson (stripFence (stringifyJson (JDoc.dobj o)))
        = some (JDoc.dobj o) := by
  have hS : (stringifyJson (JDoc.dobj o)).data = '{' :: strMems o ++ ['}'] :=
    rfl
  have hgood : goodDoc (JDoc.dobj o) = true := hnum
  constructor
  · rw [stripFence_fenced_id hS hzw hnt, parseJson_stringify _ hgood]
  · rw [stripFence_id hS hzw hnt, parseJson_stringify _ hgood]

/-- A concrete extractor response exercising the amended round trip: a
nested object, an array, the decimal number 12.5, booleans, null, and
strings that need `\n` and `\"` escapes. -/
def demoMems : List (String × JDoc) :=
  [("invoice_date", JDoc.dstr "2025-07-03"),
   ("total", JDoc.dnum twelvePointFive),
   ("breakdown", JDoc.dobj [("tax", JDoc.dnum twelvePointFive),
                            ("paid", JDoc.dbool true)]),
   ("items", JDoc.darr [JDoc.dstr "a\nb", JDoc.dnull]),
   ("note", JDoc.dstr "say \"hi\"")]

set_option maxRecDepth 40000 in
/-- C7 (witness): the amended round trip holds at the concrete
`demoMems` object, both fenced and unfenced. -/
theorem c7_witness :
    parseJson (stripFence ⟨fenceOpen
        ++ ((stringifyJson (JDoc.dobj demoMems)).data ++ fenceClose)⟩)
      = some (JDoc.dobj demoMems)
    ∧ parseJson (stripFence (stringifyJson (JDoc.dobj demoMems)))
      = some (JDoc.dobj demoMems) :=
  c7_roundtrip_amended demoMems (by decide) (by decide) (by decide)
